import Mathlib

/-!
Verification development for the `file_system` Ansible inventory plugin
(`plugins/inventory/file_system.py`).  The Python code is shallowly embedded:
parsed YAML/Python values become the inductive type `Value`, Python dicts
become association lists in insertion order, raised exceptions become
`Except PyErr`, and each method of `InventoryGenerator` becomes a Lean
function with the same name.
-/

set_option maxRecDepth 4000

namespace FileSystemInventory

/-- The Python exception classes that the plugin's code paths can raise. -/
inductive PyErr where
  | typeError
  | keyError
  | attributeError
  | indexError
  | valueError
  | ioError
  | yamlError
deriving DecidableEq, Repr

/-- A hashable (dict-key) Python value: `None`, bool, int or str.  Python dict
keys must be hashable, so lists and dicts never occur as keys. -/
inductive Scalar where
  | snull : Scalar
  | sbool : Bool → Scalar
  | sint : Int → Scalar
  | sstr : String → Scalar
deriving DecidableEq, Repr

/-- A parsed YAML / Python value as the plugin manipulates it.  Mappings are
association lists in insertion order (Python dicts preserve insertion order).
Floats are not modelled; no claim involves them. -/
inductive Value where
  | scalar : Scalar → Value
  | vlist : List Value → Value
  | vmap : List (Scalar × Value) → Value
deriving Repr

/-- A Python dict: keys in insertion order. -/
abbrev Dict := List (Scalar × Value)

/-- Dict lookup (`d[k]` / `k in d` semantics; first matching key). -/
def lookup (d : Dict) (k : Scalar) : Option Value :=
  match d with
  | [] => none
  | (k', v) :: rest => if k' = k then some v else lookup rest k

/-- Python `d[k] = v`: replace the value in place if `k` is present, keep its
position; otherwise append the new key at the end. -/
def setKey (d : Dict) (k : Scalar) (v : Value) : Dict :=
  match d with
  | [] => [(k, v)]
  | (k', v') :: rest => if k' = k then (k, v) :: rest else (k', v') :: setKey rest k v

/-- The keys of a dict, in insertion order. -/
def keysOf (d : Dict) : List Scalar := d.map Prod.fst

/-- The keys of a Python dict are distinct. -/
def keyNodup (d : Dict) : Prop := (keysOf d).Nodup

instance (d : Dict) : Decidable (keyNodup d) := by
  unfold keyNodup; infer_instance

/-- Python truthiness of a value. -/
def truthy : Value → Bool
  | .scalar .snull => false
  | .scalar (.sbool b) => b
  | .scalar (.sint n) => n ≠ 0
  | .scalar (.sstr s) => s ≠ ""
  | .vlist xs => !xs.isEmpty
  | .vmap m => !m.isEmpty

/-- Whether a value is a Python dict (`isinstance(v, dict)`). -/
def isMapB : Value → Bool
  | .vmap _ => true
  | _ => false

/-- One iteration of the `for key in b` loop body of `InventoryGenerator.merge`
acting on the current state of `a`, with `rec_` standing for the recursive
`self.merge` call made when both values are dicts.  `pass` branches (equal or
conflicting non-dict leaves) leave `a` unchanged: `a`'s value wins. -/
def mergeStep (rec_ : Dict → Dict → Dict) (acc : Dict) (kv : Scalar × Value) : Dict :=
  match lookup acc kv.1, kv.2 with
  | some (.vmap am), .vmap bm => setKey acc kv.1 (.vmap (rec_ am bm))
  | some _, _ => acc
  | none, _ => setKey acc kv.1 kv.2

mutual

/-- Nesting depth of a value (0 for scalars). -/
def valDepth : Value → Nat
  | .scalar _ => 0
  | .vlist xs => listDepth xs + 1
  | .vmap m => dictDepth m + 1

/-- Greatest nesting depth among a list's elements. -/
def listDepth : List Value → Nat
  | [] => 0
  | x :: rest => max (valDepth x) (listDepth rest)

/-- Greatest nesting depth among a dict's values. -/
def dictDepth : List (Scalar × Value) → Nat
  | [] => 0
  | kv :: rest => max (valDepth kv.2) (dictDepth rest)

end

/-- Fuelled translation of `InventoryGenerator.merge(a, b)` ("merges b into a").
The guard `if not all([a, b]): return dict(a)` returns (a shallow copy of) `a`
whenever either argument is an empty dict.  Otherwise the loop walks `b` in
insertion order mutating `a`; the function returns `dict(a)`, whose value
equals the mutated `a`.  The fuel only bounds the nesting depth of `b`
(`merge` below always supplies enough) and makes the definition structurally
recursive, hence kernel-computable. -/
def mergeFuel : Nat → Dict → Dict → Dict
  | 0, a, _ => a
  | fuel + 1, a, b =>
      if a.isEmpty || b.isEmpty then a
      else b.foldl (mergeStep (mergeFuel fuel)) a

/-- The function `InventoryGenerator.merge(a, b)` as a value-level function: the returned
dict (`dict(a)` in the code, equal as a value to the mutated `a`). -/
def merge (a b : Dict) : Dict := mergeFuel (dictDepth b + 1) a b

/-- The final state of `merge`'s first argument: the code mutates `a` in place
(`a[key] = b[key]` for gap keys, and recursive merging of shared nested
dicts), and `dict(a)` is a shallow copy of that mutated `a`, so as a value the
final state of `a` coincides with the return value.  The second argument is
only ever read. -/
def mergeFinalFirstArg (a b : Dict) : Dict := merge a b

/-- The accumulation loop over the collected `set_fact` dicts
(`generate_host_data`, lines 245-246): each new fact is merged as the FIRST
argument onto the accumulated result,
`definition_file_vars = self.merge(fact_vars, definition_file_vars)`. -/
def factsFold (facts : List Dict) : Dict :=
  facts.foldl (fun acc f => merge f acc) []

/-- The value the LAST fact mentioning key `k` assigns to it (file order). -/
def lastFactValue (facts : List Dict) (k : Scalar) : Option Value :=
  facts.foldl (fun r f => match lookup f k with | some v => some v | none => r) none

/-- Python iteration over a value (`for x in v`): lists yield their elements,
strings yield their one-character substrings, dicts yield their keys; `None`,
bools and ints are not iterable (`TypeError`). -/
def pyIter : Value → Except PyErr (List Value)
  | .vlist xs => .ok xs
  | .scalar (.sstr s) => .ok (s.data.map (fun c => Value.scalar (.sstr (String.mk [c]))))
  | .vmap m => .ok (m.map (fun kv => Value.scalar kv.1))
  | .scalar _ => .error .typeError

/-- One element of a "dictionary update sequence" as `dict(...)` consumes it:
a two-element list is a key/value pair (the key must be hashable), any other
length raises `ValueError`; a two-character string pairs its characters; a
two-key dict pairs its keys; non-iterable elements raise `TypeError`. -/
def pairOf : Value → Except PyErr (Scalar × Value)
  | .vlist [k, v] =>
      (match k with
      | .scalar ks => .ok (ks, v)
      | _ => .error .typeError)
  | .vlist _ => .error .valueError
  | .scalar (.sstr s) =>
      (match s.data with
      | [c1, c2] => .ok (.sstr (String.mk [c1]), .scalar (.sstr (String.mk [c2])))
      | _ => .error .valueError)
  | .vmap [kv1, kv2] => .ok (kv1.1, .scalar kv2.1)
  | .vmap _ => .error .valueError
  | .scalar _ => .error .typeError

/-- Folding a pair sequence into a dict, later occurrences of a key winning
in place (ordinary Python dict update semantics). -/
def pairsFold : List Value → Dict → Except PyErr Dict
  | [], acc => .ok acc
  | x :: rest, acc =>
      match pairOf x with
      | .error e => .error e
      | .ok kv => pairsFold rest (setKey acc kv.1 kv.2)

/-- The Python `dict(x)` constructor as the plugin uses it: a dict is copied
shallowly; any other value is iterated as a key/value pair sequence. -/
def pyDict (v : Value) : Except PyErr Dict :=
  match v with
  | .vmap m => .ok m
  | _ =>
      match pyIter v with
      | .error e => .error e
      | .ok elems => pairsFold elems []

/-- Python `v.get(key, default)`: only dicts have `.get`; any other receiver
raises `AttributeError`. -/
def pyGet (v : Value) (key : Scalar) (dflt : Value) : Except PyErr Value :=
  match v with
  | .vmap m => .ok ((lookup m key).getD dflt)
  | _ => .error .attributeError

/-- The fact-collecting comprehension of `generate_host_data` (lines 243-244):
`[dict(f.get('set_fact', \x7b\x7d)) for f in definition_data if dict(f.get('set_fact', ...))]`,
keeping only non-empty `set_fact` dicts, evaluated left to right with the
first raised exception propagating. -/
def collectFacts : List Value → Except PyErr (List Dict)
  | [] => .ok []
  | f :: rest =>
      match pyGet f (.sstr "set_fact") (.vmap []) with
      | .error e => .error e
      | .ok fv =>
          match pyDict fv with
          | .error e => .error e
          | .ok d =>
              match collectFacts rest with
              | .error e => .error e
              | .ok more => .ok (if d.isEmpty then more else d :: more)

/-- The body of the `try:` block of `generate_host_data` (lines 240-246): a
dict-shaped file reads `dict(definition_data[0].get('vars', ...))` (raising
`KeyError` when integer key `0` is absent), a list-shaped file folds its
`set_fact` entries through `merge`, and any other shape leaves the variables
empty. -/
def tryBody : Value → Except PyErr Dict
  | .vmap m =>
      (match lookup m (.sint 0) with
      | none => .error .keyError
      | some v0 =>
          match pyGet v0 (.sstr "vars") (.vmap []) with
          | .error e => .error e
          | .ok vv => pyDict vv)
  | .vlist entries =>
      (match collectFacts entries with
      | .error e => .error e
      | .ok facts => .ok (factsFold facts))
  | _ => .ok []

/-- Lines 236-252 of `generate_host_data`: the declared variables of one
parsed definition file.  Only `TypeError` is caught by the
`except TypeError` handler (leaving the variables as the initial empty dict);
every other exception propagates and aborts the run. -/
def defVarsOfData (d : Value) : Except PyErr Dict :=
  match tryBody d with
  | .ok v => .ok v
  | .error .typeError => .ok []
  | .error e => .error e

/-- The merge order claim C1 asserts, following the spec\x27s words: the
`set_fact` mappings merged together in file order with the accumulated
(earlier) result as the dominant first `merge` argument, so that an earlier
entry\x27s value is kept on any key conflict and later entries only fill
gaps. -/
def specFactsFoldEarlierWins (facts : List Dict) : Dict :=
  match facts with
  | [] => []
  | f :: rest => rest.foldl (fun acc g => merge acc g) f

/-- Split a character list on a separator, Python `str.split(sep)` semantics
(`"".split(sep)` is `[""]`; adjacent separators yield empty fields). -/
def splitOnChar (sep : Char) : List Char → List (List Char)
  | [] => [[]]
  | c :: rest =>
      if c = sep then [] :: splitOnChar sep rest
      else
        match splitOnChar sep rest with
        | [] => [[c]]
        | g :: gs => (c :: g) :: gs

/-- Python `str.split(sep)` on strings. -/
def strSplit (sep : Char) (s : String) : List String :=
  (splitOnChar sep s.data).map String.mk

/-- Whether a character occurs in a list. -/
def hasChar (x : Char) : List Char → Bool
  | [] => false
  | c :: rest => c = x || hasChar x rest

/-- Digits of a decimal numeral, most significant first. -/
def natOfDigits (ds : List Char) : Nat :=
  ds.foldl (fun acc c => acc * 10 + (c.toNat - Char.toNat '0')) 0

/-- Strip leading and trailing spaces (the whitespace `int()` ignores). -/
def trimSpaces (l : List Char) : List Char :=
  ((l.dropWhile (fun c => c = ' ')).reverse.dropWhile (fun c => c = ' ')).reverse

/-- Python `int(s)`: optional surrounding whitespace, an optional sign, then
one or more ASCII digits; anything else raises `ValueError`.  (Unicode digits
and underscore separators are not modelled.) -/
def pyInt (s : List Char) : Except PyErr Int :=
  match trimSpaces s with
  | [] => .error .valueError
  | c :: rest =>
      if c = '-' then
        (if rest ≠ [] ∧ rest.all Char.isDigit then .ok (-(natOfDigits rest : Int))
         else .error .valueError)
      else if c = '+' then
        (if rest ≠ [] ∧ rest.all Char.isDigit then .ok ((natOfDigits rest : Int))
         else .error .valueError)
      else if (c :: rest).all Char.isDigit then .ok ((natOfDigits (c :: rest) : Int))
      else .error .valueError

/-- Python `range(start, stop)` over ints, as a list. -/
def intRange (start stop : Int) : List Int :=
  (List.range (stop - start).toNat).map (fun (i : Nat) => start + Int.ofNat i)

/-- Python `"%02d" % n`: decimal rendering zero-padded to a minimum width of
two characters (wider numbers are rendered in full). -/
def pad2 (n : Int) : String :=
  if 0 ≤ n ∧ n < 10 then "0" ++ toString n else toString n

/-- The character filter of `str.translate(str.maketrans(, , []))` used by
`expand_host`: keep everything except square brackets. -/
def notBracket (c : Char) : Bool := !(c = '[' || c = ']')

/-- The method `InventoryGenerator.expand_host` (lines 177-195) for a successful
`synthetic_hostname_pattern` match with groups `hoststring` (the name before
the bracket) and `range_group` (the bracketed range, always the last and
non-empty group for this pattern): brackets are deleted, the remainder is
split on `-`, `int()` is applied to the first (and, for a range, second)
field, and each number in the inclusive range is appended to the name as a
`"%02d"`-formatted suffix. -/
def expand_host (hoststring range_group : List Char) :
    Except PyErr (List (List Char)) :=
  let range_string := range_group.filter notBracket
  let hostnums := splitOnChar '-' range_string
  match pyInt (hostnums.headD []) with
  | .error e => .error e
  | .ok start =>
      match (if hostnums.length > 1 then pyInt (hostnums.getD 1 [])
             else pyInt (hostnums.headD [])) with
      | .error e => .error e
      | .ok last =>
          .ok ((intRange start (last + 1)).map
            (fun n => hoststring ++ (pad2 n).data))

/-- Whether a suffix can begin the second group of
`synthetic_hostname_pattern = re.compile((.*)(\\[[\\d]+.*\\]).*)`: it must
start with `[`, followed by a digit (the mandatory `[\\d]+`), with a `]`
somewhere after that digit. -/
def isSynSuffixOK : List Char → Bool
  | '[' :: c :: rest => c.isDigit && hasChar ']' rest
  | _ => false

/-- The prefix of `s` up to and including its LAST `]` (the greedy `.*`
inside the bracket group extends to the final `]`). -/
def takeToLastRBracket : List Char → List Char
  | [] => []
  | c :: rest =>
      if hasChar ']' rest then c :: takeToLastRBracket rest
      else if c = ']' then [']'] else []

/-- The backtracking search of the greedy `(.*)` first group: the split point
is the LATEST position whose suffix can start the bracket group; the first
group is everything before it, the second group runs to the last `]`. -/
def synSplit : List Char → Option (List Char × List Char)
  | [] => none
  | c :: rest =>
      match synSplit rest with
      | some (g1, g2) => some (c :: g1, g2)
      | none =>
          if isSynSuffixOK (c :: rest) then
            some ([], takeToLastRBracket (c :: rest))
          else none

/-- The match `self.synthetic_hostname_pattern.match(definition_file_name)` (line 207):
`re.match` anchored at the start; on success yields the two capture groups
(greedy semantics as above), otherwise `None`. -/
def matchSynthetic (name : List Char) : Option (List Char × List Char) :=
  synSplit name

/-- Index of the last `.` in a name, if any. -/
def lastDotIdx : List Char → Option Nat
  | [] => none
  | c :: rest =>
      match lastDotIdx rest with
      | some i => some (i + 1)
      | none => if c = '.' then some 0 else none

/-- Python `pathlib.Path(name).stem`: the name with its final suffix removed; a
leading dot or a trailing dot is not a suffix separator. -/
def pathStem (name : List Char) : List Char :=
  match lastDotIdx name with
  | some i => if 0 < i ∧ i < name.length - 1 then name.take i else name
  | none => name

/-- The construction-time state of `InventoryGenerator` that
`generate_host_data` and `traverse_site` read. -/
structure Gen where
  site_directory : String
  environment_domain : String
  os_class_map : Value
  sub_group_map : Value

/-- The per-file body of `InventoryGenerator.traverse_site` (lines 204-219):
the file NAME (stem plus `.yaml`) is matched against the synthetic pattern;
on a match every expanded short name yields one identity with fqdn
`short.environment_domain`; otherwise the stem is the short name, `localhost`
keeping itself as fqdn and any other stem getting the domain appended. -/
def traverse_site_file (g : Gen) (dirPath : String) (fileName : String) :
    Except PyErr (List (String × String × String)) :=
  let path := dirPath ++ "/" ++ fileName
  match matchSynthetic fileName.data with
  | some (g1, g2) =>
      (match expand_host g1 g2 with
      | .error e => .error e
      | .ok ehs =>
          .ok (ehs.map (fun eh =>
            (path, String.mk eh ++ "." ++ g.environment_domain, String.mk eh))))
  | none =>
      let hostname_short := String.mk (pathStem fileName.data)
      if hostname_short = "localhost" then
        .ok [(path, hostname_short, hostname_short)]
      else
        .ok [(path, hostname_short ++ "." ++ g.environment_domain, hostname_short)]

/-- Python `repr` of a value (single-quoted strings, bracketed containers),
with fuel for the nesting (always sufficient below). -/
def pyReprFuel : Nat → Value → String
  | _, .scalar .snull => "None"
  | _, .scalar (.sbool true) => "True"
  | _, .scalar (.sbool false) => "False"
  | _, .scalar (.sint n) => toString n
  | _, .scalar (.sstr str_) => "\x27" ++ str_ ++ "\x27"
  | 0, _ => ""
  | f + 1, .vlist xs => "[" ++ String.intercalate ", " (xs.map (pyReprFuel f)) ++ "]"
  | f + 1, .vmap m =>
      "\x7b" ++ String.intercalate ", "
        (m.map (fun kv => pyReprFuel f (.scalar kv.1) ++ ": " ++ pyReprFuel f kv.2))
      ++ "\x7d"

/-- Python `str(v)` as an f-string renders it: a string stays itself, any
other value is its `repr`. -/
def pyStr : Value → String
  | .scalar (.sstr str_) => str_
  | v => pyReprFuel (valDepth v) v

/-- Python `Path(p).parent.as_posix()` for the slash-separated paths the walker
produces: drop the last path component. -/
def pathParent (p : String) : String :=
  String.intercalate "/" (strSplit '/' p).dropLast

/-- Python `Path(p).name`: the last path component. -/
def pathName (p : String) : String :=
  ((strSplit '/' p).getLast?).getD ""

/-- Lines 253-258 of `generate_host_data`: the record's PATH is split on `@`;
a child@parent path rewrites the processed name to `parent_group:fqdn` where
`parent_group` drops the trailing label of the segment after the first `@`;
otherwise the name is the walked fqdn unchanged. -/
def hostnameOf (path fqdn : String) : String :=
  let hostparts := strSplit '@' path
  if hostparts.length > 1 then
    (String.intercalate "." ((strSplit '.' (hostparts.getD 1 "")).dropLast))
      ++ ":" ++ fqdn
  else fqdn

/-- Python `list(c.keys())[0]` of one classification-map entry: `AttributeError` if
`c` is not a dict, `IndexError` if it is empty. -/
def firstKeyOf : Value → Except PyErr Value
  | .vmap [] => .error .indexError
  | .vmap (kv :: _) => .ok (.scalar kv.1)
  | _ => .error .attributeError

/-- Python `list(c.values())[0]` of one classification-map entry. -/
def firstValOf : Value → Except PyErr Value
  | .vmap [] => .error .indexError
  | .vmap (kv :: _) => .ok kv.2
  | _ => .error .attributeError

/-- First key and first value of one entry together (used to state the
positional pairing of the two comprehensions). -/
def firstPairOf : Value → Except PyErr (Value × Value)
  | .vmap [] => .error .indexError
  | .vmap (kv :: _) => .ok (.scalar kv.1, kv.2)
  | _ => .error .attributeError

/-- The inner loop `for c in v` with filter `if code == k` of the
classification comprehensions (lines 272-279). -/
def compInner {α : Type} (pick : Value → Except PyErr α) (code k : Scalar) :
    List Value → Except PyErr (List α)
  | [] => .ok []
  | c :: cs =>
      if code = k then
        match pick c with
        | .error e => .error e
        | .ok x =>
            match compInner pick code k cs with
            | .error e => .error e
            | .ok r => .ok (x :: r)
      else compInner pick code k cs

/-- The outer loop `for k, v in map.items()` of the comprehensions; every
value `v` is iterated whether or not its key matches. -/
def compEntries {α : Type} (pick : Value → Except PyErr α) (code : Scalar) :
    List (Scalar × Value) → Except PyErr (List α)
  | [] => .ok []
  | (k, v) :: rest =>
      match pyIter v with
      | .error e => .error e
      | .ok cs =>
          match compInner pick code k cs with
          | .error e => .error e
          | .ok here =>
              match compEntries pick code rest with
              | .error e => .error e
              | .ok more => .ok (here ++ more)

/-- One classification comprehension, e.g.
`[list(c.keys())[0] for k, v in self.os_class_map.items() for c in v if code == k]`;
`.items()` on a non-dict map raises `AttributeError`. -/
def classComp {α : Type} (pick : Value → Except PyErr α) (m : Value)
    (code : Scalar) : Except PyErr (List α) :=
  match m with
  | .vmap entries => compEntries pick code entries
  | _ => .error .attributeError

/-- Python `v == "s"` for an optional value (absent compares unequal). -/
def isStrOpt (v : Option Value) (str_ : String) : Bool :=
  match v with
  | some (.scalar (.sstr t)) => t = str_
  | _ => false

/-- Lines 291-296 of `generate_host_data`: `ansible_ssh_host` is a truthy
declared `ansible_real_host`; otherwise the processed name is used for both
`ansible_ssh_host` and `ansible_winrm_host`. -/
def realHostPhase (host_data0 : Dict) (hostname : String) : Dict :=
  match lookup host_data0 (.sstr "ansible_real_host") with
  | some rv =>
      if truthy rv then setKey host_data0 (.sstr "ansible_ssh_host") rv
      else
        setKey (setKey host_data0 (.sstr "ansible_ssh_host")
            (.scalar (.sstr hostname)))
          (.sstr "ansible_winrm_host") (.scalar (.sstr hostname))
  | none =>
      setKey (setKey host_data0 (.sstr "ansible_ssh_host")
          (.scalar (.sstr hostname)))
        (.sstr "ansible_winrm_host") (.scalar (.sstr hostname))

/-- Lines 297-304: `system_type == "lxd"` with a truthy `lxd_host` rewrites
`ansible_host` to `lxd_host:short`; `system_type == "qemu"` overwrites both
`ansible_host` and `ansible_ssh_host` with the short host name. -/
def sysTypePhase (host_data : Dict) (short : String) : Dict :=
  let system_type := lookup host_data (.sstr "system_type")
  if isStrOpt system_type "lxd" then
    match lookup host_data (.sstr "lxd_host") with
    | some lv =>
        if truthy lv then
          setKey host_data (.sstr "ansible_host")
            (.scalar (.sstr (pyStr lv ++ ":" ++ short)))
        else host_data
    | none => host_data
  else if isStrOpt system_type "qemu" then
    setKey (setKey host_data (.sstr "ansible_host") (.scalar (.sstr short)))
      (.sstr "ansible_ssh_host") (.scalar (.sstr short))
  else host_data

/-- Lines 291-304 of `generate_host_data` applied to the merged host data:
real-host resolution followed by the `system_type` overrides. -/
def connectionFields (host_data0 : Dict) (hostname short : String) : Dict :=
  sysTypePhase (realHostPhase host_data0 hostname) short

/-- Lines 282-289: the metadata fields appended to every emitted record, in
insertion order, ending with the initial `ansible_host = hostname`. -/
def baseTail (g : Gen) (path short hostname default_group_path : String) : Dict :=
  [(.sstr "hostname", .scalar (.sstr short)),
   (.sstr "fqdn", .scalar (.sstr hostname)),
   (.sstr "definition_file", .scalar (.sstr path)),
   (.sstr "default_group_path", .scalar (.sstr default_group_path)),
   (.sstr "site_directory", .scalar (.sstr g.site_directory)),
   (.sstr "environment_domain", .scalar (.sstr g.environment_domain)),
   (.sstr "ansible_host", .scalar (.sstr hostname))]

/-- One iteration of the `for r in inv_obj_pairs` loop of
`generate_host_data` (lines 226-305) for a record `(path, fqdn, short)`.
`content` is the outcome of `read_yaml(open(path).read())` (line 236, outside
the `try:` block, so a read or parse failure is this record's uncaught
error).  Returns `none` for a record skipped by `continue`, the emitted
host-data dict otherwise; any uncaught exception propagates as `.error`. -/
def processRecord (g : Gen) (path fqdn short : String)
    (content : Except PyErr Value) : Except PyErr (Option Dict) :=
  match content with
  | .error e => .error e
  | .ok definition_data =>
      match defVarsOfData definition_data with
      | .error e => .error e
      | .ok definition_file_vars =>
          let default_group_path := pathParent path
          let primary_group := pathName default_group_path
          let hostname := hostnameOf path fqdn
          let hostname_parts := strSplit '-' hostname
          if hostname = "localhost" then
            .ok (some (connectionFields (merge
              ([(.sstr "primary_group", .scalar (.sstr "ansible_controller")),
                (.sstr "os_classes", .vlist [.scalar (.sstr "local")]),
                (.sstr "sub_groups", .vlist [.scalar (.sstr "local")])]
                ++ baseTail g path short hostname default_group_path)
              definition_file_vars) hostname short))
          else if hostname_parts.length = 1 then .ok none
          else
            let os_class := hostname_parts.headD ""
            let sub_group :=
              if hostname_parts.length > 1 then hostname_parts.getD 1 ""
              else "misc"
            match classComp firstKeyOf g.os_class_map (.sstr os_class) with
            | .error e => .error e
            | .ok os_classes =>
                match classComp firstValOf g.os_class_map (.sstr os_class) with
                | .error e => .error e
                | .ok os_class_names =>
                    match classComp firstKeyOf g.sub_group_map (.sstr sub_group) with
                    | .error e => .error e
                    | .ok sub_groups =>
                        match classComp firstValOf g.sub_group_map (.sstr sub_group) with
                        | .error e => .error e
                        | .ok sub_group_names =>
                            .ok (some (connectionFields (merge
                              ([(.sstr "os_classes", .vlist os_classes),
                                (.sstr "os_class_names", .vlist os_class_names),
                                (.sstr "sub_groups", .vlist sub_groups),
                                (.sstr "sub_group_names", .vlist sub_group_names),
                                (.sstr "primary_group", .scalar (.sstr primary_group))]
                                ++ baseTail g path short hostname default_group_path)
                              definition_file_vars) hostname short))

/-- The `generate_host_data` loop drained over a whole record list: emitted
records in order, stopping at the first uncaught exception. -/
def generate_host_data (g : Gen) :
    List (String × String × String × Except PyErr Value) →
    Except PyErr (List Dict)
  | [] => .ok []
  | (path, fqdn, short, content) :: rest =>
      match processRecord g path fqdn short content with
      | .error e => .error e
      | .ok r =>
          match generate_host_data g rest with
          | .error e => .error e
          | .ok more =>
              .ok (match r with
                   | some hd => hd :: more
                   | none => more)

/-- The `all.hosts` list plus the `_meta.hostvars` map of the output
structure of `generate_inventory`. -/
structure InvOutput where
  hosts : List Value
  hostvars : List (Scalar × Dict)
deriving Repr

/-- Assignment `hostvars[name] = record` (plain dict assignment). -/
def setHostRecord : List (Scalar × Dict) → Scalar → Dict → List (Scalar × Dict)
  | [], k, v => [(k, v)]
  | (k', v') :: rest, k, v =>
      if k' = k then (k, v) :: rest else (k', v') :: setHostRecord rest k v

/-- Register a run of names (aliases then the hostname) for one record: each
name keys the same record in `hostvars` and is appended to `hosts`; an
unhashable name raises `TypeError`. -/
def addNames : List Value → Dict → InvOutput → Except PyErr InvOutput
  | [], _, out => .ok out
  | n :: ns, hd, out =>
      match n with
      | .scalar str_ =>
          addNames ns hd ⟨out.hosts ++ [n], setHostRecord out.hostvars str_ hd⟩
      | _ => .error .typeError

/-- The assembly loop of `generate_inventory` (lines 345-354): for each host
record, every `host_aliases` entry and then the record's `hostname` are
appended to `all.hosts` and indexed in `_meta.hostvars` (a missing
`hostname` key would raise `KeyError`; `host_aliases` defaults to `[]` and is
iterated with Python iteration semantics). -/
def assembleHosts : List Dict → InvOutput → Except PyErr InvOutput
  | [], out => .ok out
  | hd :: rest, out =>
      match lookup hd (.sstr "hostname") with
      | none => .error .keyError
      | some hn =>
          match pyIter ((lookup hd (.sstr "host_aliases")).getD (.vlist [])) with
          | .error e => .error e
          | .ok als =>
              match addNames (als ++ [hn]) hd out with
              | .error e => .error e
              | .ok out2 => assembleHosts rest out2

/-- Method `generate_inventory` (lines 307-358) on a walked record list, without the
`host_mock` / `filter` short-circuits (absent by default): host data is
generated for every record and drained into the output structure. -/
def generate_inventory (g : Gen)
    (records : List (String × String × String × Except PyErr Value)) :
    Except PyErr InvOutput :=
  match generate_host_data g records with
  | .error e => .error e
  | .ok hds => assembleHosts hds ⟨[], []⟩

/-- Lines 135-157 of `InventoryGenerator.__init__` for one classification-map
configuration value.  A falsy value (absent/empty) yields an empty map; an
inline dict is taken as is; otherwise the value is a path: a path naming an
existing file has `read_yaml(open(path).read())` applied (whose failure
raises) and its `data` key taken (`.get` raising `AttributeError` on a
non-dict parse); a path naming NO file falls into the bare `else` and
silently yields an empty map.  A truthy non-string, non-dict value raises
`TypeError` inside `Path(...)`.  The filesystem is a function from path to
`none` (`is_file()` false) or the outcome of reading and parsing the file. -/
def loadClassMap (arg : Value) (fs : String → Option (Except PyErr Value)) :
    Except PyErr Value :=
  if truthy arg = false then .ok (.vmap [])
  else
    match arg with
    | .vmap _ => .ok arg
    | .scalar (.sstr s) =>
        (match fs s with
        | none => .ok (.vmap [])
        | some (.error e) => .error e
        | some (.ok v) => pyGet v (.sstr "data") (.vmap []))
    | _ => .error .typeError

/-- The classification-map part of `__init__`: both maps are loaded at
construction and the first raised exception aborts it. -/
def initClassMaps (osArg sgArg : Value)
    (fs : String → Option (Except PyErr Value)) :
    Except PyErr (Value × Value) :=
  match loadClassMap osArg fs with
  | .error e => .error e
  | .ok m1 =>
      match loadClassMap sgArg fs with
      | .error e => .error e
      | .ok m2 => .ok (m1, m2)

theorem valDepth_le_of_mem {b : List (Scalar × Value)} {kv : Scalar × Value}
    (h : kv ∈ b) : valDepth kv.2 ≤ dictDepth b := by
  induction b with
  | nil => cases h
  | cons hd tl ih =>
      rcases List.mem_cons.mp h with h | h
      · subst h
        simp only [dictDepth]
        omega
      · have := ih h
        simp only [dictDepth]
        omega

theorem mergeFuel_congr : ∀ (f g : Nat) (a b : Dict),
    dictDepth b < f → dictDepth b < g → mergeFuel f a b = mergeFuel g a b := by
  intro f
  induction f with
  | zero => intro g a b hf; omega
  | succ f ih =>
      intro g a b hf hg
      cases g with
      | zero => omega
      | succ g =>
          simp only [mergeFuel]
          cases hA : a.isEmpty with
          | true => simp
          | false =>
            cases hB : b.isEmpty with
            | true => simp
            | false =>
              simp only [Bool.or_false]
              apply List.foldl_ext
              intro acc kv hkv
              unfold mergeStep
              rcases hL : lookup acc kv.1 with _ | v
              · rfl
              · rcases v with s | xs | am
                · rfl
                · rfl
                · rcases hKV : kv.2 with s | xs | bm
                  · rfl
                  · rfl
                  · have hd : valDepth kv.2 ≤ dictDepth b := valDepth_le_of_mem hkv
                    rw [hKV] at hd
                    simp only [valDepth] at hd
                    show setKey acc kv.1 (Value.vmap (mergeFuel f am bm)) =
                      setKey acc kv.1 (Value.vmap (mergeFuel g am bm))
                    rw [ih g am bm (by omega) (by omega)]

/-- The guard of `merge`: if either input is empty, (a copy of) the first
argument is returned. -/
theorem merge_of_isEmpty {a b : Dict} (h : (a.isEmpty || b.isEmpty) = true) :
    merge a b = a := by
  simp [merge, mergeFuel, h]

/-- The loop of `merge`: with both inputs non-empty, the result folds the
per-key step over `b` in insertion order, recursing through `merge` itself
for keys whose values are dicts on both sides. -/
theorem merge_eq_foldl {a b : Dict} (ha : a ≠ []) (hb : b ≠ []) :
    merge a b = b.foldl (mergeStep merge) a := by
  have hA : a.isEmpty = false := by simpa [List.isEmpty_iff] using ha
  have hB : b.isEmpty = false := by simpa [List.isEmpty_iff] using hb
  simp only [merge, mergeFuel, hA, hB, Bool.or_self, Bool.false_or,
    Bool.false_eq_true, if_false]
  apply List.foldl_ext
  intro acc kv hkv
  unfold mergeStep
  rcases hL : lookup acc kv.1 with _ | v
  · rfl
  · rcases v with s | xs | am
    · rfl
    · rfl
    · rcases hKV : kv.2 with s | xs | bm
      · rfl
      · rfl
      · have hd : valDepth kv.2 ≤ dictDepth b := valDepth_le_of_mem hkv
        rw [hKV] at hd
        simp only [valDepth] at hd
        show setKey acc kv.1 (Value.vmap (mergeFuel (dictDepth b) am bm)) =
          setKey acc kv.1 (Value.vmap (merge am bm))
        simp only [merge]
        rw [mergeFuel_congr (dictDepth b) (dictDepth bm + 1) am bm (by omega) (by omega)]

theorem lookup_setKey_self (d : Dict) (k : Scalar) (v : Value) :
    lookup (setKey d k v) k = some v := by
  induction d with
  | nil => simp [setKey, lookup]
  | cons hd tl ih =>
      obtain ⟨k1, v1⟩ := hd
      by_cases h : k1 = k <;> simp [setKey, lookup, h, ih]

theorem lookup_setKey_ne (d : Dict) {k k' : Scalar} (v : Value) (h : k' ≠ k) :
    lookup (setKey d k v) k' = lookup d k' := by
  have h' : ¬ (k = k') := fun hh => h hh.symm
  induction d with
  | nil => simp [setKey, lookup, h']
  | cons hd tl ih =>
      obtain ⟨k1, v1⟩ := hd
      by_cases hh : k1 = k
      · subst hh
        simp [setKey, lookup, h']
      · simp only [setKey, if_neg hh, lookup]
        by_cases h2 : k1 = k' <;> simp [h2, ih]

theorem lookup_eq_none_of_not_mem_keys {d : Dict} {k : Scalar}
    (h : k ∉ keysOf d) : lookup d k = none := by
  induction d with
  | nil => rfl
  | cons hd tl ih =>
      obtain ⟨k1, v1⟩ := hd
      simp only [keysOf, List.map_cons, List.mem_cons, not_or] at h
      have hne : ¬ (k1 = k) := fun hh => h.1 (Eq.symm hh)
      simp only [lookup, hne, if_false]
      exact ih h.2

/-- What one loop iteration of `merge` does to the value found at a key. -/
theorem lookup_mergeStep (a : Dict) (bk : Scalar) (bv : Value) (k : Scalar) :
    lookup (mergeStep merge a (bk, bv)) k =
      if bk = k then
        match lookup a bk, bv with
        | some (.vmap am), .vmap bm => some (.vmap (merge am bm))
        | some v, _ => some v
        | none, _ => some bv
      else lookup a k := by
  by_cases hk : bk = k
  · subst hk
    rw [if_pos rfl]
    rcases hL : lookup a bk with _ | v
    · rcases bv with s | xs | bm <;>
        simp [mergeStep, hL, lookup_setKey_self]
    · rcases v with s | xs | am <;> rcases bv with s2 | xs2 | bm <;>
        simp [mergeStep, hL, lookup_setKey_self]
  · rw [if_neg hk]
    rcases hL : lookup a bk with _ | v
    · rcases bv with s | xs | bm <;>
        simp [mergeStep, hL, lookup_setKey_ne _ _ (fun hh => hk (Eq.symm hh))]
    · rcases v with s | xs | am <;> rcases bv with s2 | xs2 | bm <;>
        simp [mergeStep, hL, lookup_setKey_ne _ _ (fun hh => hk (Eq.symm hh))]

/-- Keys that `b` does not mention keep their `a`-value through the loop. -/
theorem lookup_foldl_of_b_none {k : Scalar} :
    ∀ (b : List (Scalar × Value)) (a : Dict), lookup b k = none →
      lookup (b.foldl (mergeStep merge) a) k = lookup a k := by
  intro b
  induction b with
  | nil => intro a _; rfl
  | cons hd tl ih =>
      intro a hb
      obtain ⟨bk, bv⟩ := hd
      have hbk : ¬ (bk = k) := by
        intro hh
        simp [lookup, hh] at hb
      simp only [lookup, if_neg hbk] at hb
      simp only [List.foldl_cons]
      rw [ih _ hb, lookup_mergeStep, if_neg hbk]

/-- A non-dict value of `a` survives the whole loop unconditionally:
conflicts are resolved in favour of `a` and never recursed into. -/
theorem lookup_foldl_keep_nonmap {k : Scalar} {v : Value} (hm : isMapB v = false) :
    ∀ (b : List (Scalar × Value)) (a : Dict), lookup a k = some v →
      lookup (b.foldl (mergeStep merge) a) k = some v := by
  intro b
  induction b with
  | nil => intro a ha; simpa using ha
  | cons hd tl ih =>
      intro a ha
      obtain ⟨bk, bv⟩ := hd
      simp only [List.foldl_cons]
      apply ih
      rw [lookup_mergeStep]
      by_cases hk : bk = k
      · subst hk
        rw [if_pos rfl, ha]
        rcases v with s | xs | am

        · rcases bv with s2 | xs2 | bm <;> rfl
        · rcases bv with s2 | xs2 | bm <;> rfl
        · simp [isMapB] at hm
      · rw [if_neg hk]; exact ha

/-- A key with dict values on both sides holds the recursive merge, provided
`b`'s keys are distinct (always true of a Python dict). -/
theorem lookup_foldl_both_map {k : Scalar} {am : Dict} :
    ∀ (b : List (Scalar × Value)) (a : Dict) {bm : Dict},
      (keysOf b).Nodup → lookup a k = some (.vmap am) →
      lookup b k = some (.vmap bm) →
      lookup (b.foldl (mergeStep merge) a) k = some (.vmap (merge am bm)) := by
  intro b
  induction b with
  | nil => intro a bm _ _ hb; simp [lookup] at hb
  | cons hd tl ih =>
      intro a bm hnd ha hb
      obtain ⟨bk, bv⟩ := hd
      simp only [keysOf, List.map_cons, List.nodup_cons] at hnd
      simp only [List.foldl_cons]
      by_cases hk : bk = k
      · subst hk
        have hbv : bv = Value.vmap bm := by
          simp [lookup] at hb
          exact hb
        have htl : lookup tl bk = none :=
          lookup_eq_none_of_not_mem_keys hnd.1
        rw [lookup_foldl_of_b_none _ _ htl, lookup_mergeStep, if_pos rfl, ha, hbv]
      · simp only [lookup, if_neg hk] at hb
        apply ih _ hnd.2 _ hb
        rw [lookup_mergeStep, if_neg hk]
        exact ha

/-- A dict value of `a` whose key maps to a non-dict in `b` also survives. -/
theorem lookup_foldl_map_vs_nonmap {k : Scalar} {am : Dict} :
    ∀ (b : List (Scalar × Value)) (a : Dict) {bv : Value},
      (keysOf b).Nodup → lookup a k = some (.vmap am) →
      lookup b k = some bv → isMapB bv = false →
      lookup (b.foldl (mergeStep merge) a) k = some (.vmap am) := by
  intro b
  induction b with
  | nil => intro a bv _ _ hb; simp [lookup] at hb
  | cons hd tl ih =>
      intro a bv hnd ha hb hm
      obtain ⟨bk, bv'⟩ := hd
      simp only [keysOf, List.map_cons, List.nodup_cons] at hnd
      simp only [List.foldl_cons]
      by_cases hk : bk = k
      · subst hk
        have hbv : bv' = bv := by
          simp [lookup] at hb
          exact hb
        have htl : lookup tl bk = none :=
          lookup_eq_none_of_not_mem_keys hnd.1
        rw [lookup_foldl_of_b_none _ _ htl, lookup_mergeStep, if_pos rfl, ha, hbv]
        rcases bv with s | xs | bm
        · rfl
        · rfl
        · simp [isMapB] at hm
      · simp only [lookup, if_neg hk] at hb
        apply ih _ hnd.2 _ hb hm
        rw [lookup_mergeStep, if_neg hk]
        exact ha

/-- A key absent from `a` receives `b`'s value (gap filling), provided `b`'s
keys are distinct. -/
theorem lookup_foldl_fill {k : Scalar} :
    ∀ (b : List (Scalar × Value)) (a : Dict) {bv : Value},
      (keysOf b).Nodup → lookup a k = none → lookup b k = some bv →
      lookup (b.foldl (mergeStep merge) a) k = some bv := by
  intro b
  induction b with
  | nil => intro a bv _ _ hb; simp [lookup] at hb
  | cons hd tl ih =>
      intro a bv hnd ha hb
      obtain ⟨bk, bv'⟩ := hd
      simp only [keysOf, List.map_cons, List.nodup_cons] at hnd
      simp only [List.foldl_cons]
      by_cases hk : bk = k
      · subst hk
        have hbv : bv' = bv := by
          simp [lookup] at hb
          exact hb
        have htl : lookup tl bk = none :=
          lookup_eq_none_of_not_mem_keys hnd.1
        rw [lookup_foldl_of_b_none _ _ htl, lookup_mergeStep, if_pos rfl, ha, hbv]
      · simp only [lookup, if_neg hk] at hb
        apply ih _ hnd.2 _ hb
        rw [lookup_mergeStep, if_neg hk]
        exact ha

theorem setKey_ne_nil (d : Dict) (k : Scalar) (v : Value) : setKey d k v ≠ [] := by
  cases d with
  | nil => simp [setKey]
  | cons hd tl =>
      obtain ⟨k1, v1⟩ := hd
      by_cases h : k1 = k <;> simp [setKey, h]

theorem mergeStep_ne_nil {acc : Dict} (h : acc ≠ []) (kv : Scalar × Value) :
    mergeStep merge acc kv ≠ [] := by
  obtain ⟨bk, bv⟩ := kv
  rcases hL : lookup acc bk with _ | v
  · rcases bv with s | xs | bm <;> simp [mergeStep, hL, setKey_ne_nil]
  · rcases v with s | xs | am <;> rcases bv with s2 | xs2 | bm <;>
      simp [mergeStep, hL, setKey_ne_nil, h]

theorem foldl_mergeStep_ne_nil :
    ∀ (b : List (Scalar × Value)) {a : Dict}, a ≠ [] →
      b.foldl (mergeStep merge) a ≠ [] := by
  intro b
  induction b with
  | nil => intro a h; simpa using h
  | cons hd tl ih =>
      intro a h
      simp only [List.foldl_cons]
      exact ih (mergeStep_ne_nil h hd)

theorem merge_ne_nil {a b : Dict} (h : a ≠ []) : merge a b ≠ [] := by
  rcases hb : b with _ | ⟨hd, tl⟩
  · rw [merge_of_isEmpty (by simp)]
    exact h
  · rw [merge_eq_foldl h (by simp)]
    exact foldl_mergeStep_ne_nil _ h

theorem keysOf_cons (kv : Scalar × Value) (l : Dict) :
    keysOf (kv :: l) = kv.1 :: keysOf l := rfl

theorem keysOf_setKey (d : Dict) (k : Scalar) (v : Value) :
    keysOf (setKey d k v) = if k ∈ keysOf d then keysOf d else keysOf d ++ [k] := by
  induction d with
  | nil => simp [setKey, keysOf]
  | cons hd tl ih =>
      obtain ⟨k1, v1⟩ := hd
      by_cases h : k1 = k
      · subst h
        simp [setKey, keysOf]
      · have hne : ¬ (k = k1) := fun hh => h (Eq.symm hh)
        rw [show setKey ((k1, v1) :: tl) k v = (k1, v1) :: setKey tl k v from by
          simp [setKey, h]]
        rw [keysOf_cons, keysOf_cons, ih]
        by_cases h2 : k ∈ keysOf tl
        · rw [if_pos h2, if_pos (List.mem_cons_of_mem _ h2)]
        · rw [if_neg h2, if_neg (by rw [List.mem_cons]; push_neg; exact ⟨hne, h2⟩)]
          simp

theorem keyNodup_setKey {d : Dict} (h : keyNodup d) (k : Scalar) (v : Value) :
    keyNodup (setKey d k v) := by
  unfold keyNodup at *
  rw [keysOf_setKey]
  by_cases hm : k ∈ keysOf d
  · simpa [hm] using h
  · simp only [hm, if_false]
    simpa [List.nodup_append] using ⟨h, hm⟩

theorem keyNodup_mergeStep {acc : Dict} (h : keyNodup acc) (kv : Scalar × Value) :
    keyNodup (mergeStep merge acc kv) := by
  obtain ⟨bk, bv⟩ := kv
  rcases hL : lookup acc bk with _ | v
  · rcases bv with s | xs | bm <;>
      simpa [mergeStep, hL] using keyNodup_setKey h bk _
  · rcases v with s | xs | am <;> rcases bv with s2 | xs2 | bm <;>
      first
        | (simpa [mergeStep, hL] using h)
        | (simpa [mergeStep, hL] using keyNodup_setKey h bk _)

theorem keyNodup_foldl_mergeStep :
    ∀ (b : List (Scalar × Value)) {a : Dict}, keyNodup a →
      keyNodup (b.foldl (mergeStep merge) a) := by
  intro b
  induction b with
  | nil => intro a h; simpa using h
  | cons hd tl ih =>
      intro a h
      simp only [List.foldl_cons]
      exact ih (keyNodup_mergeStep h hd)

theorem keyNodup_merge {a b : Dict} (h : keyNodup a) : keyNodup (merge a b) := by
  by_cases hb : b = []
  · rw [hb, merge_of_isEmpty (by simp)]
    exact h
  · by_cases ha : a = []
    · rw [ha, merge_of_isEmpty (by simp)]
      simp [keyNodup, keysOf]
    · rw [merge_eq_foldl ha hb]
      exact keyNodup_foldl_mergeStep _ h

theorem lookup_merge_keep_nonmap {a b : Dict} {k : Scalar} {v : Value}
    (ha : a ≠ []) (h : lookup a k = some v) (hm : isMapB v = false) :
    lookup (merge a b) k = some v := by
  by_cases hb : b = []
  · rw [hb, merge_of_isEmpty (by simp)]
    exact h
  · rw [merge_eq_foldl ha hb]
    exact lookup_foldl_keep_nonmap hm _ _ h

theorem lookup_merge_of_b_none {a b : Dict} {k : Scalar}
    (hb : lookup b k = none) : lookup (merge a b) k = lookup a k := by
  by_cases hbe : b = []
  · rw [hbe, merge_of_isEmpty (by simp)]
  · by_cases ha : a = []
    · rw [ha, merge_of_isEmpty (by simp)]
    · rw [merge_eq_foldl ha hbe]
      exact lookup_foldl_of_b_none _ _ hb

theorem lookup_merge_both_map {a b : Dict} {k : Scalar} {am bm : Dict}
    (ha : a ≠ []) (hnd : keyNodup b) (hak : lookup a k = some (.vmap am))
    (hbk : lookup b k = some (.vmap bm)) :
    lookup (merge a b) k = some (.vmap (merge am bm)) := by
  have hb : b ≠ [] := by
    intro hh
    rw [hh] at hbk
    simp [lookup] at hbk
  rw [merge_eq_foldl ha hb]
  exact lookup_foldl_both_map _ _ hnd hak hbk

theorem lookup_merge_map_vs_nonmap {a b : Dict} {k : Scalar} {am : Dict} {bv : Value}
    (ha : a ≠ []) (hnd : keyNodup b) (hak : lookup a k = some (.vmap am))
    (hbk : lookup b k = some bv) (hm : isMapB bv = false) :
    lookup (merge a b) k = some (.vmap am) := by
  have hb : b ≠ [] := by
    intro hh
    rw [hh] at hbk
    simp [lookup] at hbk
  rw [merge_eq_foldl ha hb]
  exact lookup_foldl_map_vs_nonmap _ _ hnd hak hbk hm

theorem lookup_merge_fill {a b : Dict} {k : Scalar} {bv : Value}
    (ha : a ≠ []) (hnd : keyNodup b) (hak : lookup a k = none)
    (hbk : lookup b k = some bv) : lookup (merge a b) k = some bv := by
  have hb : b ≠ [] := by
    intro hh
    rw [hh] at hbk
    simp [lookup] at hbk
  rw [merge_eq_foldl ha hb]
  exact lookup_foldl_fill _ _ hnd hak hbk

theorem lookup_factsFold_aux (k : Scalar) :
    ∀ (facts : List Dict) (acc : Dict) (r : Option Value),
      (∀ f ∈ facts, f ≠ []) →
      (∀ f ∈ facts, keyNodup f) →
      (∀ f ∈ facts, ∀ v, lookup f k = some v → isMapB v = false) →
      keyNodup acc →
      lookup acc k = r →
      lookup (facts.foldl (fun acc f => merge f acc) acc) k =
        facts.foldl (fun r f => match lookup f k with | some v => some v | none => r) r := by
  intro facts
  induction facts with
  | nil =>
      intro acc r _ _ _ _ hr
      simpa using hr
  | cons f rest ih =>
      intro acc r hne hnd hnm hanodup hr
      simp only [List.foldl_cons]
      have hfne : f ≠ [] := hne f (List.mem_cons_self f rest)
      have hfnd : keyNodup f := hnd f (List.mem_cons_self f rest)
      have hfnm : ∀ v, lookup f k = some v → isMapB v = false :=
        hnm f (List.mem_cons_self f rest)
      have hstep : lookup (merge f acc) k =
          (match lookup f k with | some v => some v | none => r) := by
        rcases hF : lookup f k with _ | v
        · by_cases hacc : acc = []
          · rw [hacc, merge_of_isEmpty (by simp), hF]
            rw [hacc] at hr
            simpa [lookup] using hr
          · rcases hA : lookup acc k with _ | w
            · rw [lookup_merge_of_b_none hA, hF]
              rw [hA] at hr
              exact hr
            · rw [lookup_merge_fill hfne hanodup hF hA]
              rw [hA] at hr
              exact hr
        · rw [lookup_merge_keep_nonmap hfne hF (hfnm v hF)]
      have hnodup2 : keyNodup (merge f acc) := keyNodup_merge hfnd
      exact ih (merge f acc) _
        (fun g hg => hne g (List.mem_cons_of_mem _ hg))
        (fun g hg => hnd g (List.mem_cons_of_mem _ hg))
        (fun g hg => hnm g (List.mem_cons_of_mem _ hg))
        hnodup2 hstep

/-- Fact-lists are folded so that the value of the LAST `set_fact` entry
containing a key wins; earlier entries only survive at keys no later entry
sets (all values at the key being non-dicts, all facts non-empty dicts with
distinct keys, as produced by the YAML parser). -/
theorem lookup_factsFold {facts : List Dict} {k : Scalar}
    (hne : ∀ f ∈ facts, f ≠ [])
    (hnd : ∀ f ∈ facts, keyNodup f)
    (hnm : ∀ f ∈ facts, ∀ v, lookup f k = some v → isMapB v = false) :
    lookup (factsFold facts) k = lastFactValue facts k := by
  unfold factsFold lastFactValue
  exact lookup_factsFold_aux k facts [] none hne hnd hnm (by simp [keyNodup, keysOf]) rfl

/-- C2: for non-empty dict arguments, `merge(a, b)` keeps `a`'s value
unconditionally on any conflict at non-dict values, keeps a dict value of `a`
against a non-dict of `b`, recurses when both values are dicts, keeps keys of
`a` untouched by `b`, adds each key of `b` absent from `a`, and in particular
merges a=(a:1) with b=(a:2, b:3) to (a:1, b:3). -/
theorem merge_nonempty_spec (a b : Dict) (ha : a ≠ []) (hb : b ≠ [])
    (hnd : keyNodup b) :
    (∀ k v, lookup a k = some v → isMapB v = false →
      lookup (merge a b) k = some v)
    ∧ (∀ k (am bm : Dict), lookup a k = some (.vmap am) →
        lookup b k = some (.vmap bm) →
        lookup (merge a b) k = some (.vmap (merge am bm)))
    ∧ (∀ k (am : Dict) (bv : Value), lookup a k = some (.vmap am) →
        lookup b k = some bv → isMapB bv = false →
        lookup (merge a b) k = some (.vmap am))
    ∧ (∀ k v, lookup a k = some v → lookup b k = none →
        lookup (merge a b) k = some v)
    ∧ (∀ k bv, lookup a k = none → lookup b k = some bv →
        lookup (merge a b) k = some bv)
    ∧ merge [(.sstr "a", .scalar (.sint 1))]
        [(.sstr "a", .scalar (.sint 2)), (.sstr "b", .scalar (.sint 3))]
      = [(.sstr "a", .scalar (.sint 1)), (.sstr "b", .scalar (.sint 3))] := by
  refine ⟨?_, ?_, ?_, ?_, ?_, rfl⟩
  · intro k v h hm
    exact lookup_merge_keep_nonmap ha h hm
  · intro k am bm hak hbk
    exact lookup_merge_both_map ha hnd hak hbk
  · intro k am bv hak hbk hm
    exact lookup_merge_map_vs_nonmap ha hnd hak hbk hm
  · intro k v hak hbk
    rw [lookup_merge_of_b_none hbk]
    exact hak
  · intro k bv hak hbk
    exact lookup_merge_fill ha hnd hak hbk

theorem merge_nonempty_spec_witness :
    lookup (merge [(.sstr "x", .scalar (.sint 5))]
        [(.sstr "x", .scalar (.sint 7)), (.sstr "y", .scalar (.sstr "z"))])
      (.sstr "x") = some (.scalar (.sint 5)) :=
  (merge_nonempty_spec [(.sstr "x", .scalar (.sint 5))]
      [(.sstr "x", .scalar (.sint 7)), (.sstr "y", .scalar (.sstr "z"))]
      (by simp) (by simp) (by decide)).1
    (.sstr "x") (.scalar (.sint 5)) rfl rfl

/-- C3 counterexample: `merge({}, b)` returns `{}`, not `b`, for a non-empty
`b`: the guard returns `dict(a)` — always the FIRST argument — whenever either
input is empty. -/
theorem merge_empty_first_counterexample :
    merge [] [(.sstr "b", .scalar (.sint 1))] = ([] : Dict)
    ∧ ([] : Dict) ≠ [(.sstr "b", .scalar (.sint 1))] := by
  exact ⟨rfl, by simp⟩

/-- C3 (amended): whenever at least one argument is empty, `merge` returns
(a shallow copy of) its first argument — `merge(a, )` is `a`,
`merge(, b)` is empty for every `b`, and `merge(, )` is empty. -/
theorem merge_empty_cases (a b : Dict) (h : a = [] ∨ b = []) : merge a b = a := by
  apply merge_of_isEmpty
  rcases h with h | h <;> simp [h]

theorem merge_empty_cases_witness :
    merge [] [(.sstr "b", .scalar (.sint 1))] = ([] : Dict) :=
  merge_empty_cases [] [(.sstr "b", .scalar (.sint 1))] (Or.inl rfl)

/-- C10 counterexample: `merge` is not pure.  The loop body
`a[key] = b[key]` mutates the first argument in place: after
`merge({:a 1}, {:b 2})` the first argument holds both keys, so it did not
remain unchanged. -/
theorem merge_purity_counterexample :
    mergeFinalFirstArg [(.sstr "a", .scalar (.sint 1))]
        [(.sstr "b", .scalar (.sint 2))]
      ≠ [(.sstr "a", .scalar (.sint 1))] := by
  intro h
  exact absurd (congrArg List.length h) (by decide)

/-- C10 (amended): `merge` returns a new top-level mapping and never writes to
its second argument, but it mutates its first argument in place, leaving it
equal to the returned mapping; whenever `b` contributes a key absent from a
non-empty `a`, the first argument really changes. -/
theorem merge_mutates_first_arg (a b : Dict) (k : Scalar) (bv : Value)
    (ha : a ≠ []) (hnd : keyNodup b) (hak : lookup a k = none)
    (hbk : lookup b k = some bv) :
    mergeFinalFirstArg a b = merge a b ∧ mergeFinalFirstArg a b ≠ a := by
  refine ⟨rfl, ?_⟩
  intro h
  have hfill : lookup (merge a b) k = some bv := lookup_merge_fill ha hnd hak hbk
  rw [show mergeFinalFirstArg a b = merge a b from rfl] at h
  rw [h, hak] at hfill
  exact Option.noConfusion hfill

theorem merge_mutates_first_arg_witness :
    mergeFinalFirstArg [(.sstr "a", .scalar (.sint 1))]
        [(.sstr "b", .scalar (.sint 2))]
      ≠ [(.sstr "a", .scalar (.sint 1))] :=
  (merge_mutates_first_arg [(.sstr "a", .scalar (.sint 1))]
      [(.sstr "b", .scalar (.sint 2))] (.sstr "b") (.scalar (.sint 2))
      (by simp) (by decide) rfl rfl).2

theorem collectFacts_ne_nil : ∀ {entries : List Value} {facts : List Dict},
    collectFacts entries = .ok facts → ∀ f ∈ facts, f ≠ [] := by
  intro entries
  induction entries with
  | nil =>
      intro facts h f hf
      simp only [collectFacts, Except.ok.injEq] at h
      subst h
      cases hf
  | cons e rest ih =>
      intro facts h f hf
      simp only [collectFacts] at h
      split at h
      · exact absurd h (by simp)
      · rename_i fv h1
        split at h
        · exact absurd h (by simp)
        · rename_i d h2
          split at h
          · exact absurd h (by simp)
          · rename_i more h3
            simp only [Except.ok.injEq] at h
            subst h
            by_cases hd : d.isEmpty
            · rw [if_pos hd] at hf
              exact ih h3 f hf
            · rw [if_neg hd] at hf
              rcases List.mem_cons.mp hf with h4 | h4
              · subst h4
                simpa [List.isEmpty_iff] using hd
              · exact ih h3 f h4

/-- C1 counterexample: for a two-entry fact list setting `x: 1` then `x: 2`,
the code produces `x = 2` (the LATER entry wins, because each new fact is the
first, dominant argument of `merge`), while the claimed earlier-entry-wins
merge would produce `x = 1`. -/
theorem fact_list_merge_counterexample :
    defVarsOfData (.vlist
        [.vmap [(.sstr "set_fact", .vmap [(.sstr "x", .scalar (.sint 1))])],
         .vmap [(.sstr "set_fact", .vmap [(.sstr "x", .scalar (.sint 2))])]])
      = .ok [(.sstr "x", .scalar (.sint 2))]
    ∧ specFactsFoldEarlierWins
        [[(.sstr "x", .scalar (.sint 1))], [(.sstr "x", .scalar (.sint 2))]]
      = [(.sstr "x", .scalar (.sint 1))]
    ∧ ([(Scalar.sstr "x", Value.scalar (Scalar.sint 2))] : Dict)
      ≠ [(Scalar.sstr "x", Value.scalar (Scalar.sint 1))] := by
  refine ⟨rfl, rfl, ?_⟩
  simp

/-- C1 (amended): for a fact-list definition file the declared variable set is
the fold, in file order, in which each entry\x27s non-empty `set_fact`
mapping is merged as the first, dominant argument onto the result accumulated
so far: on a key conflict the LATEST entry\x27s value wins, and an earlier
entry\x27s value survives only at keys that no later entry sets (stated for
keys holding non-dict values; facts are dicts with distinct keys, as the YAML
parser produces). -/
theorem fact_list_later_entry_wins {entries : List Value} {facts : List Dict}
    {k : Scalar}
    (hc : collectFacts entries = .ok facts)
    (hnd : ∀ f ∈ facts, keyNodup f)
    (hnm : ∀ f ∈ facts, ∀ v, lookup f k = some v → isMapB v = false) :
    defVarsOfData (.vlist entries) = .ok (factsFold facts)
    ∧ lookup (factsFold facts) k = lastFactValue facts k := by
  constructor
  · simp only [defVarsOfData, tryBody, hc]
  · exact lookup_factsFold (collectFacts_ne_nil hc) hnd hnm

theorem fact_list_later_entry_wins_witness :
    (defVarsOfData (.vlist
        [.vmap [(.sstr "set_fact", .vmap [(.sstr "x", .scalar (.sint 1))])],
         .vmap [(.sstr "set_fact", .vmap [(.sstr "x", .scalar (.sint 2))])]])
      = .ok (factsFold
          [[(.sstr "x", .scalar (.sint 1))], [(.sstr "x", .scalar (.sint 2))]]))
    ∧ lookup (factsFold
          [[(.sstr "x", .scalar (.sint 1))], [(.sstr "x", .scalar (.sint 2))]])
        (.sstr "x")
      = lastFactValue
          [[(.sstr "x", .scalar (.sint 1))], [(.sstr "x", .scalar (.sint 2))]]
          (.sstr "x") :=
  fact_list_later_entry_wins rfl (by decide)
    (by
      intro f hf v hv
      have hcase : f = [(.sstr "x", .scalar (.sint 1))]
          ∨ f = [(.sstr "x", .scalar (.sint 2))] := by
        simpa using hf
      rcases hcase with h | h <;>
        (subst h; simp [lookup] at hv; subst hv; rfl))

theorem hasChar_iff {x : Char} : ∀ {l : List Char}, hasChar x l = true ↔ x ∈ l := by
  intro l
  induction l with
  | nil => simp [hasChar]
  | cons c rest ih =>
      simp only [hasChar, Bool.or_eq_true, decide_eq_true_eq, List.mem_cons, ih]
      constructor
      · rintro (h | h)
        · exact Or.inl (Eq.symm h)
        · exact Or.inr h
      · rintro (h | h)
        · exact Or.inl (Eq.symm h)
        · exact Or.inr h

theorem hasChar_eq_false_iff {x : Char} {l : List Char} :
    hasChar x l = false ↔ x ∉ l := by
  rw [← hasChar_iff]
  cases hasChar x l <;> simp

theorem digit_ne_lbracket {c : Char} (h : c.isDigit = true) : c ≠ '[' := by
  intro he; subst he; exact absurd h (by decide)

theorem digit_ne_rbracket {c : Char} (h : c.isDigit = true) : c ≠ ']' := by
  intro he; subst he; exact absurd h (by decide)

theorem digit_ne_dash {c : Char} (h : c.isDigit = true) : c ≠ '-' := by
  intro he; subst he; exact absurd h (by decide)

theorem digit_ne_space {c : Char} (h : c.isDigit = true) : c ≠ ' ' := by
  intro he; subst he; exact absurd h (by decide)

theorem synSplit_append {l g1 g2 : List Char}
    (h : synSplit l = some (g1, g2)) :
    ∀ xs : List Char, synSplit (xs ++ l) = some (xs ++ g1, g2) := by
  intro xs
  induction xs with
  | nil => simpa using h
  | cons x xs ih =>
      simp only [List.cons_append, synSplit]
      have ih2 : synSplit (xs.append l) = some (xs ++ g1, g2) := ih
      rw [ih2]

theorem isSynSuffixOK_eq_false {c : Char} (h : c ≠ '[') (rest : List Char) :
    isSynSuffixOK (c :: rest) = false := by
  unfold isSynSuffixOK
  split
  · rename_i c3 rest3 heq
    injection heq with h1 _
    first
      | exact absurd h1 h
      | exact absurd (Eq.symm h1) h
  · rfl

theorem synSplit_none_of_no_lbracket : ∀ {l : List Char}, '[' ∉ l →
    synSplit l = none := by
  intro l
  induction l with
  | nil => intro _; rfl
  | cons c rest ih =>
      intro h
      simp only [List.mem_cons, not_or] at h
      simp only [synSplit, ih h.2,
        isSynSuffixOK_eq_false (fun he => h.1 (Eq.symm he)) rest,
        Bool.false_eq_true, if_false]

theorem takeToLastRBracket_append {r : List Char} (hr : ']' ∉ r) :
    ∀ l : List Char, takeToLastRBracket (l ++ ']' :: r) = l ++ [']'] := by
  intro l
  induction l with
  | nil =>
      simp only [List.nil_append, takeToLastRBracket]
      rw [hasChar_eq_false_iff.mpr hr]
      simp
  | cons c l' ih =>
      have hmem : hasChar ']' (l'.append (']' :: r)) = true :=
        hasChar_iff.mpr (List.mem_append_right _ (List.mem_cons_self _ _))
      have ih2 : takeToLastRBracket (l'.append (']' :: r)) = l' ++ [']'] := ih
      simp only [List.cons_append, takeToLastRBracket, hmem, if_true, ih2]

/-- The greedy match of the synthetic pattern on a well-formed bracketed name:
group 1 is everything before the bracket, group 2 runs to the last `]`. -/
theorem matchSynthetic_bracket (c0 : Char) (mrest tail_ : List Char)
    (hd0 : c0.isDigit = true)
    (hnolb : '[' ∉ c0 :: mrest) (hnolbt : '[' ∉ tail_) (hnorb : ']' ∉ tail_) :
    ∀ pre : List Char,
      matchSynthetic (pre ++ '[' :: ((c0 :: mrest) ++ ']' :: tail_))
        = some (pre, '[' :: ((c0 :: mrest) ++ [']'])) := by
  intro pre
  have h1 : synSplit ((c0 :: mrest) ++ ']' :: tail_) = none := by
    apply synSplit_none_of_no_lbracket
    intro hmem
    rcases List.mem_append.mp hmem with h | h
    · exact hnolb h
    · rcases List.mem_cons.mp h with h | h
      · exact absurd h (by decide)
      · exact hnolbt h
  have h2 : isSynSuffixOK ('[' :: ((c0 :: mrest) ++ ']' :: tail_)) = true := by
    simp only [List.cons_append, isSynSuffixOK, hd0, Bool.true_and]
    exact hasChar_iff.mpr (List.mem_append_right _ (List.mem_cons_self _ _))
  have h3 : takeToLastRBracket ('[' :: ((c0 :: mrest) ++ ']' :: tail_))
      = '[' :: ((c0 :: mrest) ++ [']']) := by
    have h := takeToLastRBracket_append hnorb ('[' :: (c0 :: mrest))
    simpa using h
  have h4 : synSplit ('[' :: ((c0 :: mrest) ++ ']' :: tail_))
      = some ([], '[' :: ((c0 :: mrest) ++ [']'])) := by
    rw [show synSplit ('[' :: ((c0 :: mrest) ++ ']' :: tail_))
        = (match synSplit ((c0 :: mrest) ++ ']' :: tail_) with
           | some (g1, g2) => some ('[' :: g1, g2)
           | none =>
              if isSynSuffixOK ('[' :: ((c0 :: mrest) ++ ']' :: tail_)) then
                some ([], takeToLastRBracket ('[' :: ((c0 :: mrest) ++ ']' :: tail_)))
              else none) from rfl]
    rw [h1]
    simp only [h2, if_true, h3]
  have h5 := synSplit_append h4 pre
  simpa [matchSynthetic] using h5

theorem splitOnChar_of_not_mem {sep : Char} : ∀ {l : List Char}, sep ∉ l →
    splitOnChar sep l = [l] := by
  intro l
  induction l with
  | nil => intro _; rfl
  | cons c rest ih =>
      intro h
      simp only [List.mem_cons, not_or] at h
      have hc : ¬ (c = sep) := fun he => h.1 (Eq.symm he)
      simp only [splitOnChar, hc, if_false, ih h.2]

theorem splitOnChar_append {sep : Char} {ys : List Char} :
    ∀ {xs : List Char}, sep ∉ xs →
      splitOnChar sep (xs ++ sep :: ys) = xs :: splitOnChar sep ys := by
  intro xs
  induction xs with
  | nil =>
      intro _
      simp [splitOnChar]
  | cons x xs ih =>
      intro h
      simp only [List.mem_cons, not_or] at h
      have hx : ¬ (x = sep) := fun he => h.1 (Eq.symm he)
      have ih2 : splitOnChar sep (xs.append (sep :: ys)) = xs :: splitOnChar sep ys :=
        ih h.2
      simp only [List.cons_append, splitOnChar, hx, if_false, ih2]

theorem dropWhile_space_of_digits : ∀ {m : List Char},
    (∀ c ∈ m, c.isDigit = true) → m.dropWhile (fun c => c = ' ') = m := by
  intro m h
  cases m with
  | nil => rfl
  | cons c rest =>
      have hc : ¬ (c = ' ') := digit_ne_space (h c (List.mem_cons_self _ _))
      simp [List.dropWhile_cons, hc]

theorem trimSpaces_of_digits {m : List Char}
    (h : ∀ c ∈ m, c.isDigit = true) : trimSpaces m = m := by
  unfold trimSpaces
  rw [dropWhile_space_of_digits h,
    dropWhile_space_of_digits (fun c hc => h c (List.mem_reverse.mp hc)),
    List.reverse_reverse]

theorem pyInt_digits {ds : List Char} (h1 : ds ≠ [])
    (h2 : ∀ c ∈ ds, c.isDigit = true) :
    pyInt ds = .ok ((natOfDigits ds : Nat) : Int) := by
  unfold pyInt
  rw [trimSpaces_of_digits h2]
  cases ds with
  | nil => exact absurd rfl h1
  | cons c rest =>
      have hc : c.isDigit = true := h2 c (List.mem_cons_self _ _)
      have hdash : ¬ (c = '-') := digit_ne_dash hc
      have hplus : ¬ (c = '+') := by
        intro he; subst he; exact absurd hc (by decide)
      have hall : (c :: rest).all Char.isDigit = true := List.all_eq_true.mpr h2
      simp only [hdash, if_false, hplus, hall, if_true]

theorem pad2_ofNat (m : Nat) :
    pad2 ((m : Nat) : Int) = if m < 10 then "0" ++ toString m else toString m := by
  unfold pad2
  have h0 : (0 : Int) ≤ (m : Int) := Int.natCast_nonneg m
  have h10 : ((m : Int) < 10) ↔ m < 10 := by exact_mod_cast Iff.rfl
  by_cases hm : m < 10
  · rw [if_pos ⟨h0, h10.mpr hm⟩, if_pos hm]
    rfl
  · rw [if_neg (fun hh => hm (h10.mp hh.2)), if_neg hm]
    rfl

theorem intRange_natCast (A B : Nat) (hAB : A ≤ B) :
    intRange (A : Int) ((B : Int) + 1)
      = (List.range (B - A + 1)).map (fun i => ((A + i : Nat) : Int)) := by
  unfold intRange
  have h1 : (((B : Int) + 1) - (A : Int)).toNat = B - A + 1 := by omega
  rw [h1]
  apply List.map_congr_left
  intro i _
  simp only [Int.ofNat_eq_natCast]
  push_cast
  ring

theorem notBracket_of_digit {c : Char} (h : c.isDigit = true) :
    notBracket c = true := by
  unfold notBracket
  rw [decide_eq_false (digit_ne_lbracket h), decide_eq_false (digit_ne_rbracket h)]
  rfl

theorem filter_notBracket_digits {ds : List Char}
    (h : ∀ c ∈ ds, c.isDigit = true) : ds.filter notBracket = ds :=
  List.filter_eq_self.mpr (fun c hc => notBracket_of_digit (h c hc))

theorem not_dash_mem_digits {ds : List Char}
    (h : ∀ c ∈ ds, c.isDigit = true) : '-' ∉ ds :=
  fun hmem => (digit_ne_dash (h '-' hmem)) rfl

/-- Running `expand_host` on a hyphenated range `[A-B]`: every number of the
inclusive range, zero-padded to at least two digits, appended to the name. -/
theorem expand_host_range {dA dB : List Char} {A B : Nat} (pre : List Char)
    (hA0 : dA ≠ []) (hB0 : dB ≠ [])
    (hdA : ∀ c ∈ dA, c.isDigit = true) (hdB : ∀ c ∈ dB, c.isDigit = true)
    (hvA : natOfDigits dA = A) (hvB : natOfDigits dB = B) (hAB : A ≤ B) :
    expand_host pre ('[' :: ((dA ++ '-' :: dB) ++ [']']))
      = .ok ((List.range (B - A + 1)).map (fun i =>
          pre ++ (if A + i < 10 then "0" ++ toString (A + i)
                  else toString (A + i)).data)) := by
  have hfil : ('[' :: ((dA ++ '-' :: dB) ++ [']'])).filter notBracket
      = dA ++ '-' :: dB := by
    have h1 : notBracket '[' = false := by decide
    have h2 : notBracket ']' = false := by decide
    have h3 : notBracket '-' = true := by decide
    simp [List.filter_cons, List.filter_append, h1, h2, h3,
      filter_notBracket_digits hdA, filter_notBracket_digits hdB]
  have hsplit : splitOnChar '-' (dA ++ '-' :: dB) = [dA, dB] := by
    rw [splitOnChar_append (not_dash_mem_digits hdA),
      splitOnChar_of_not_mem (not_dash_mem_digits hdB)]
  have hiA : pyInt dA = .ok ((A : Nat) : Int) := by
    rw [pyInt_digits hA0 hdA, hvA]
  have hiB : pyInt dB = .ok ((B : Nat) : Int) := by
    rw [pyInt_digits hB0 hdB, hvB]
  have hif : (if ([dA, dB] : List (List Char)).length > 1
      then pyInt (([dA, dB] : List (List Char)).getD 1 [])
      else Except.ok ((A : Nat) : Int)) = Except.ok ((B : Nat) : Int) := by
    rw [if_pos (by simp)]
    show pyInt dB = _
    exact hiB
  simp only [expand_host, hfil, hsplit, List.headD_cons, hiA]
  simp only [hif]
  rw [intRange_natCast A B hAB, List.map_map]
  refine congrArg Except.ok (List.map_congr_left ?_)
  intro i _
  simp only [Function.comp_apply]
  rw [pad2_ofNat (A + i)]

/-- Running `expand_host` on a single bracketed index `[N]`: exactly one name. -/
theorem expand_host_single {dN : List Char} {N : Nat} (pre : List Char)
    (hN0 : dN ≠ []) (hdN : ∀ c ∈ dN, c.isDigit = true)
    (hvN : natOfDigits dN = N) :
    expand_host pre ('[' :: (dN ++ [']']))
      = .ok [pre ++ (if N < 10 then "0" ++ toString N else toString N).data] := by
  have hfil : ('[' :: (dN ++ [']'])).filter notBracket = dN := by
    have h1 : notBracket '[' = false := by decide
    have h2 : notBracket ']' = false := by decide
    simp [List.filter_cons, List.filter_append, h1, h2,
      filter_notBracket_digits hdN]
  have hsplit : splitOnChar '-' dN = [dN] :=
    splitOnChar_of_not_mem (not_dash_mem_digits hdN)
  have hiN : pyInt dN = .ok ((N : Nat) : Int) := by
    rw [pyInt_digits hN0 hdN, hvN]
  have hif : (if ([dN] : List (List Char)).length > 1
      then pyInt (([dN] : List (List Char)).getD 1 [])
      else Except.ok ((N : Nat) : Int)) = Except.ok ((N : Nat) : Int) := by
    rw [if_neg (by simp)]
  have hrange : intRange ((N : Nat) : Int) (((N : Nat) : Int) + 1)
      = [((N : Nat) : Int)] := by
    have h := intRange_natCast N N (le_refl N)
    simpa using h
  simp only [expand_host, hfil, hsplit, List.headD_cons, hiN]
  simp only [hif]
  rw [hrange]
  simp only [List.map_cons, List.map_nil]
  rw [pad2_ofNat N]

/-- C6: for a synthetic filename stem `pre[A-B]` (`A ≤ B`, file name
`pre[A-B].yaml`) the Site Walker yields exactly `B-A+1` host identities whose
short names are `pre` followed by each of `A..B` rendered as a zero-padded
decimal of at least two digits (larger numbers rendered in full), fqdn
`short.environment_domain`; a single-index stem `pre[N]` yields exactly one
identity with short name `pre` plus the zero-padded `N`. -/
theorem site_walker_synthetic_expansion (g : Gen) (dir : String)
    (pre dA dB dN : List Char) (A B N : Nat)
    (hA0 : dA ≠ []) (hB0 : dB ≠ []) (hN0 : dN ≠ [])
    (hdA : ∀ c ∈ dA, c.isDigit = true) (hdB : ∀ c ∈ dB, c.isDigit = true)
    (hdN : ∀ c ∈ dN, c.isDigit = true)
    (hvA : natOfDigits dA = A) (hvB : natOfDigits dB = B)
    (hvN : natOfDigits dN = N) (hAB : A ≤ B) :
    (traverse_site_file g dir
        (String.mk (pre ++ '[' :: ((dA ++ '-' :: dB) ++ ']' :: ".yaml".data)))
      = .ok ((List.range (B - A + 1)).map (fun i =>
          (dir ++ "/" ++ String.mk
              (pre ++ '[' :: ((dA ++ '-' :: dB) ++ ']' :: ".yaml".data)),
           String.mk (pre ++ (if A + i < 10 then "0" ++ toString (A + i)
             else toString (A + i)).data) ++ "." ++ g.environment_domain,
           String.mk (pre ++ (if A + i < 10 then "0" ++ toString (A + i)
             else toString (A + i)).data)))))
    ∧ traverse_site_file g dir
        (String.mk (pre ++ '[' :: (dN ++ ']' :: ".yaml".data)))
      = .ok [(dir ++ "/" ++ String.mk (pre ++ '[' :: (dN ++ ']' :: ".yaml".data)),
           String.mk (pre ++ (if N < 10 then "0" ++ toString N
             else toString N).data) ++ "." ++ g.environment_domain,
           String.mk (pre ++ (if N < 10 then "0" ++ toString N
             else toString N).data))] := by
  constructor
  · cases dA with
    | nil => exact absurd rfl hA0
    | cons d0 dA' =>
        have hd0 : d0.isDigit = true := hdA d0 (List.mem_cons_self _ _)
        have hnolb : '[' ∉ (d0 :: dA') ++ '-' :: dB := by
          intro hmem
          rcases List.mem_append.mp hmem with h | h
          · exact absurd (hdA _ h) (by decide)
          · rcases List.mem_cons.mp h with h | h
            · exact absurd h (by decide)
            · exact absurd (hdB _ h) (by decide)
        have hnolb2 : '[' ∉ d0 :: (dA' ++ '-' :: dB) := hnolb
        have hm0 := matchSynthetic_bracket d0 (dA' ++ '-' :: dB) ".yaml".data hd0
          hnolb2 (by decide) (by decide) pre
        have hm : matchSynthetic
            (String.mk (pre ++ '[' ::
              (((d0 :: dA') ++ '-' :: dB) ++ ']' :: ".yaml".data))).data
            = some (pre, '[' :: (((d0 :: dA') ++ '-' :: dB) ++ [']'])) := hm0
        have he := expand_host_range pre hA0 hB0 hdA hdB hvA hvB hAB
        simp only [traverse_site_file, hm, he, List.map_map]
        rfl
  · cases dN with
    | nil => exact absurd rfl hN0
    | cons n0 dN' =>
        have hn0 : n0.isDigit = true := hdN n0 (List.mem_cons_self _ _)
        have hnolb : '[' ∉ n0 :: dN' := by
          intro hmem
          exact absurd (hdN _ hmem) (by decide)
        have hm0 := matchSynthetic_bracket n0 dN' ".yaml".data hn0
          hnolb (by decide) (by decide) pre
        have hm : matchSynthetic
            (String.mk (pre ++ '[' :: ((n0 :: dN') ++ ']' :: ".yaml".data))).data
            = some (pre, '[' :: ((n0 :: dN') ++ [']'])) := hm0
        have he := expand_host_single pre hN0 hdN hvN
        simp only [traverse_site_file, hm, he, List.map_cons, List.map_nil]

theorem site_walker_synthetic_expansion_witness :
    (traverse_site_file ⟨"s", "dom", Value.vmap [], Value.vmap []⟩ "d"
        (String.mk ("web".data ++ '[' ::
          (("01".data ++ '-' :: "03".data) ++ ']' :: ".yaml".data)))
      = .ok ((List.range (3 - 1 + 1)).map (fun i =>
          ("d" ++ "/" ++ String.mk ("web".data ++ '[' ::
              (("01".data ++ '-' :: "03".data) ++ ']' :: ".yaml".data)),
           String.mk ("web".data ++ (if 1 + i < 10 then "0" ++ toString (1 + i)
             else toString (1 + i)).data) ++ "." ++
             (⟨"s", "dom", Value.vmap [], Value.vmap []⟩ : Gen).environment_domain,
           String.mk ("web".data ++ (if 1 + i < 10 then "0" ++ toString (1 + i)
             else toString (1 + i)).data)))))
    ∧ traverse_site_file ⟨"s", "dom", Value.vmap [], Value.vmap []⟩ "d"
        (String.mk ("web".data ++ '[' :: ("07".data ++ ']' :: ".yaml".data)))
      = .ok [("d" ++ "/" ++ String.mk ("web".data ++ '[' ::
            ("07".data ++ ']' :: ".yaml".data)),
           String.mk ("web".data ++ (if 7 < 10 then "0" ++ toString 7
             else toString 7).data) ++ "." ++
             (⟨"s", "dom", Value.vmap [], Value.vmap []⟩ : Gen).environment_domain,
           String.mk ("web".data ++ (if 7 < 10 then "0" ++ toString 7
             else toString 7).data))] :=
  site_walker_synthetic_expansion ⟨"s", "dom", Value.vmap [], Value.vmap []⟩ "d"
    "web".data "01".data "03".data "07".data 1 3 7
    (by decide) (by decide) (by decide) (by decide) (by decide) (by decide)
    (by decide) (by decide) (by decide) (by decide)

theorem lookup_realHostPhase_ne (d : Dict) (hostname : String) {k : Scalar}
    (h1 : ¬ (k = .sstr "ansible_ssh_host"))
    (h2 : ¬ (k = .sstr "ansible_winrm_host")) :
    lookup (realHostPhase d hostname) k = lookup d k := by
  have hA : ∀ (x : Dict) (v : Value),
      lookup (setKey x (.sstr "ansible_ssh_host") v) k = lookup x k :=
    fun x v => lookup_setKey_ne x v h1
  have hB : ∀ (x : Dict) (v : Value),
      lookup (setKey x (.sstr "ansible_winrm_host") v) k = lookup x k :=
    fun x v => lookup_setKey_ne x v h2
  unfold realHostPhase
  split
  · split
    · rw [hA]
    · rw [hB, hA]
  · rw [hB, hA]

theorem lookup_sysTypePhase_ne (d : Dict) (short : String) {k : Scalar}
    (h1 : ¬ (k = .sstr "ansible_ssh_host"))
    (h3 : ¬ (k = .sstr "ansible_host")) :
    lookup (sysTypePhase d short) k = lookup d k := by
  have hA : ∀ (x : Dict) (v : Value),
      lookup (setKey x (.sstr "ansible_ssh_host") v) k = lookup x k :=
    fun x v => lookup_setKey_ne x v h1
  have hC : ∀ (x : Dict) (v : Value),
      lookup (setKey x (.sstr "ansible_host") v) k = lookup x k :=
    fun x v => lookup_setKey_ne x v h3
  simp only [sysTypePhase]
  split
  · split
    · split
      · rw [hC]
      · rfl
    · rfl
  · split
    · rw [hA, hC]
    · rfl

theorem lookup_connectionFields_ne (d : Dict) (hostname short : String)
    {k : Scalar}
    (h1 : ¬ (k = .sstr "ansible_ssh_host"))
    (h2 : ¬ (k = .sstr "ansible_winrm_host"))
    (h3 : ¬ (k = .sstr "ansible_host")) :
    lookup (connectionFields d hostname short) k = lookup d k := by
  unfold connectionFields
  rw [lookup_sysTypePhase_ne _ _ h1 h3, lookup_realHostPhase_ne _ _ h1 h2]

theorem isStrOpt_eq_true_iff {v : Option Value} {t : String} :
    isStrOpt v t = true ↔ v = some (.scalar (.sstr t)) := by
  rcases v with _ | w
  · simp [isStrOpt]
  · rcases w with sc | xs | m
    · rcases sc with _ | b | n | u
      · simp [isStrOpt]
      · simp [isStrOpt]
      · simp [isStrOpt]
      · simp only [isStrOpt, decide_eq_true_eq, Option.some.injEq,
          Value.scalar.injEq, Scalar.sstr.injEq]
    · simp [isStrOpt]
    · simp [isStrOpt]

/-- On a merged record declaring `system_type: qemu`, the `system_type`
overrides force both connection addresses to the short host name. -/
theorem sysTypePhase_qemu (d : Dict) (short : String)
    (hq : lookup d (.sstr "system_type") = some (.scalar (.sstr "qemu"))) :
    lookup (sysTypePhase d short) (.sstr "ansible_host")
        = some (.scalar (.sstr short))
    ∧ lookup (sysTypePhase d short) (.sstr "ansible_ssh_host")
        = some (.scalar (.sstr short)) := by
  have hlxd : isStrOpt (lookup d (.sstr "system_type")) "lxd" = false := by
    rw [hq]
    simp [isStrOpt]
  have hqemu : isStrOpt (lookup d (.sstr "system_type")) "qemu" = true := by
    rw [hq]
    simp [isStrOpt]
  simp only [sysTypePhase]
  rw [hlxd, hqemu]
  simp only [Bool.false_eq_true, if_false, if_true]
  constructor
  · rw [lookup_setKey_ne _ _ (by decide), lookup_setKey_self]
  · rw [lookup_setKey_self]

/-- C7: every emitted host record whose merged variables carry
`system_type: qemu` has both `ansible_host` and `ansible_ssh_host` equal to
the short hostname — even when `ansible_real_host` is also declared, since
the `qemu` branch overwrites the ssh address derived from it. -/
theorem qemu_forces_short_addresses (g : Gen) (path fqdn short : String)
    (content : Except PyErr Value) (hd : Dict)
    (hrec : processRecord g path fqdn short content = .ok (some hd))
    (hq : lookup hd (.sstr "system_type") = some (.scalar (.sstr "qemu"))) :
    lookup hd (.sstr "ansible_host") = some (.scalar (.sstr short))
    ∧ lookup hd (.sstr "ansible_ssh_host") = some (.scalar (.sstr short)) := by
  have hshape : ∃ D : Dict, hd = sysTypePhase D short := by
    simp only [processRecord] at hrec
    split at hrec
    · exact absurd hrec (by simp)
    · split at hrec
      · exact absurd hrec (by simp)
      · split at hrec
        · simp only [Except.ok.injEq, Option.some.injEq] at hrec
          exact ⟨_, hrec.symm⟩
        · split at hrec
          · exact absurd hrec (by simp)
          · split at hrec
            · exact absurd hrec (by simp)
            · split at hrec
              · exact absurd hrec (by simp)
              · split at hrec
                · exact absurd hrec (by simp)
                · split at hrec
                  · exact absurd hrec (by simp)
                  · simp only [Except.ok.injEq, Option.some.injEq] at hrec
                    exact ⟨_, hrec.symm⟩
  obtain ⟨D, hD⟩ := hshape
  subst hD
  have hq2 : lookup D (.sstr "system_type") = some (.scalar (.sstr "qemu")) := by
    rw [← lookup_sysTypePhase_ne D short (by decide) (by decide)]
    exact hq
  exact sysTypePhase_qemu D short hq2

theorem qemu_forces_short_addresses_witness :
    ∃ hd : Dict,
      processRecord ⟨"s", "dom", Value.vmap [], Value.vmap []⟩
        "s/definitions/g/qq-x-01.yaml" "qq-x-01.dom" "qq-x-01"
        (.ok (.vlist [.vmap [(.sstr "set_fact", .vmap
          [(.sstr "system_type", .scalar (.sstr "qemu")),
           (.sstr "ansible_real_host", .scalar (.sstr "10.0.0.5"))])]]))
        = .ok (some hd)
      ∧ lookup hd (.sstr "ansible_host") = some (.scalar (.sstr "qq-x-01"))
      ∧ lookup hd (.sstr "ansible_ssh_host") = some (.scalar (.sstr "qq-x-01")) := by
  refine ⟨_, rfl, ?_⟩
  exact qemu_forces_short_addresses ⟨"s", "dom", Value.vmap [], Value.vmap []⟩
    "s/definitions/g/qq-x-01.yaml" "qq-x-01.dom" "qq-x-01"
    (.ok (.vlist [.vmap [(.sstr "set_fact", .vmap
      [(.sstr "system_type", .scalar (.sstr "qemu")),
       (.sstr "ansible_real_host", .scalar (.sstr "10.0.0.5"))])]]))
    _ rfl rfl

theorem strSplit_of_not_mem {sep : Char} {str_ : String}
    (h : sep ∉ str_.data) : strSplit sep str_ = [str_] := by
  unfold strSplit
  rw [splitOnChar_of_not_mem h]
  rfl

theorem hostnameOf_no_at {path fqdn : String} (h : '@' ∉ path.data) :
    hostnameOf path fqdn = fqdn := by
  unfold hostnameOf
  rw [strSplit_of_not_mem h]
  rfl

/-- C8 counterexample: with `environment_domain = "my-site.com"`, the walked
host `standalone` (short name without any `-`, not `localhost`) IS emitted
and appears in `all.hosts`: the dash test is applied to the full processed
fqdn `standalone.my-site.com`, whose domain part contains a `-`. -/
theorem dashless_host_emitted_counterexample :
    ('-' ∉ "standalone".data ∧ "standalone" ≠ "localhost")
    ∧ (generate_inventory ⟨"s", "my-site.com", Value.vmap [], Value.vmap []⟩
        [("s/definitions/grp/standalone.yaml", "standalone.my-site.com",
          "standalone", .ok (.vlist []))]).map InvOutput.hosts
      = .ok [.scalar (.sstr "standalone")] :=
  ⟨⟨by decide, by decide⟩, rfl⟩

/-- C8 (amended): a walked host whose short hostname contains no `-` and is
not `localhost` produces no record and contributes nothing to `all.hosts`,
PROVIDED its definition file parses and its shape handling raises nothing
uncaught, its path contains no `@`, and the environment domain itself
contains no `-`: the dash test runs on the full fqdn `short.domain`, so a
dash anywhere in the domain (or a parent rewrite) defeats the skip. -/
theorem dashless_short_skipped (g : Gen) (path fqdn short : String)
    (data : Value) (vars : Dict)
    (hdv : defVarsOfData data = .ok vars)
    (hat : '@' ∉ path.data)
    (hds : '-' ∉ short.data)
    (hdd : '-' ∉ g.environment_domain.data)
    (hfq : fqdn = short ++ "." ++ g.environment_domain) :
    processRecord g path fqdn short (.ok data) = .ok none
    ∧ (generate_inventory g [(path, fqdn, short, .ok data)]).map InvOutput.hosts
      = .ok [] := by
  have hdot : ('.' : Char) ∈ fqdn.data := by
    rw [hfq]
    rw [String.data_append, String.data_append]
    exact List.mem_append_left _ (List.mem_append_right _ (by decide))
  have hnl : ¬ (fqdn = "localhost") := by
    intro h
    rw [h] at hdot
    exact absurd hdot (by decide)
  have hnodash : ('-' : Char) ∉ fqdn.data := by
    rw [hfq, String.data_append, String.data_append]
    intro hmem
    rcases List.mem_append.mp hmem with h | h
    · rcases List.mem_append.mp h with h | h
      · exact hds h
      · exact absurd h (by decide)
    · exact hdd h
  have hsplit : strSplit '-' fqdn = [fqdn] := strSplit_of_not_mem hnodash
  have hskip : processRecord g path fqdn short (.ok data) = .ok none := by
    simp only [processRecord, hdv, hostnameOf_no_at hat, hsplit]
    rw [if_neg hnl]
    rfl
  refine ⟨hskip, ?_⟩
  simp only [generate_inventory, generate_host_data, hskip, Except.map,
    assembleHosts]

theorem dashless_short_skipped_witness :
    processRecord ⟨"s", "dom", Value.vmap [], Value.vmap []⟩
        "s/definitions/grp/standalone.yaml" "standalone.dom" "standalone"
        (.ok (.vlist [])) = .ok none
    ∧ (generate_inventory ⟨"s", "dom", Value.vmap [], Value.vmap []⟩
        [("s/definitions/grp/standalone.yaml", "standalone.dom", "standalone",
          .ok (.vlist []))]).map InvOutput.hosts = .ok [] :=
  dashless_short_skipped ⟨"s", "dom", Value.vmap [], Value.vmap []⟩
    "s/definitions/grp/standalone.yaml" "standalone.dom" "standalone"
    (.vlist []) [] rfl (by decide) (by decide) (by decide) rfl

theorem firstPairOf_of_key_val {c : Value} {x y : Value}
    (hk : firstKeyOf c = .ok x) (hv : firstValOf c = .ok y) :
    firstPairOf c = .ok (x, y) := by
  rcases c with sc | xs | m
  · simp [firstKeyOf] at hk
  · simp [firstKeyOf] at hk
  · rcases m with _ | ⟨kv, rest⟩
    · simp [firstKeyOf] at hk
    · simp only [firstKeyOf, Except.ok.injEq] at hk
      simp only [firstValOf, Except.ok.injEq] at hv
      simp [firstPairOf, hk, hv]

theorem compInner_pairs {code k : Scalar} :
    ∀ {cs : List Value} {l1 l2 : List Value},
      compInner firstKeyOf code k cs = .ok l1 →
      compInner firstValOf code k cs = .ok l2 →
      ∃ ps : List (Value × Value), compInner firstPairOf code k cs = .ok ps
        ∧ l1 = ps.map Prod.fst ∧ l2 = ps.map Prod.snd := by
  intro cs
  induction cs with
  | nil =>
      intro l1 l2 h1 h2
      simp only [compInner, Except.ok.injEq] at h1 h2
      exact ⟨[], rfl, h1.symm, h2.symm⟩
  | cons c cs ih =>
      intro l1 l2 h1 h2
      by_cases hck : code = k
      · simp only [compInner, if_pos hck] at h1 h2 ⊢
        split at h1
        · exact absurd h1 (by simp)
        · rename_i x hx
          split at h1
          · exact absurd h1 (by simp)
          · rename_i r1 hr1
            split at h2
            · exact absurd h2 (by simp)
            · rename_i y hy
              split at h2
              · exact absurd h2 (by simp)
              · rename_i r2 hr2
                simp only [Except.ok.injEq] at h1 h2
                obtain ⟨ps, hps, hf, hs⟩ := ih hr1 hr2
                refine ⟨(x, y) :: ps, ?_, ?_, ?_⟩
                · rw [firstPairOf_of_key_val hx hy, hps]
                · rw [← h1, hf]
                  rfl
                · rw [← h2, hs]
                  rfl
      · simp only [compInner, if_neg hck] at h1 h2 ⊢
        exact ih h1 h2

theorem compEntries_pairs {code : Scalar} :
    ∀ {entries : List (Scalar × Value)} {l1 l2 : List Value},
      compEntries firstKeyOf code entries = .ok l1 →
      compEntries firstValOf code entries = .ok l2 →
      ∃ ps : List (Value × Value), compEntries firstPairOf code entries = .ok ps
        ∧ l1 = ps.map Prod.fst ∧ l2 = ps.map Prod.snd := by
  intro entries
  induction entries with
  | nil =>
      intro l1 l2 h1 h2
      simp only [compEntries, Except.ok.injEq] at h1 h2
      exact ⟨[], rfl, h1.symm, h2.symm⟩
  | cons e rest ih =>
      intro l1 l2 h1 h2
      obtain ⟨k, v⟩ := e
      rcases hcs : pyIter v with e0 | cs
      · simp only [compEntries, hcs] at h1
        exact absurd h1 (by simp)
      · simp only [compEntries, hcs] at h1 h2 ⊢
        split at h1
        · exact absurd h1 (by simp)
        · rename_i here1 hh1
          split at h1
          · exact absurd h1 (by simp)
          · rename_i more1 hm1
            split at h2
            · exact absurd h2 (by simp)
            · rename_i here2 hh2
              split at h2
              · exact absurd h2 (by simp)
              · rename_i more2 hm2
                simp only [Except.ok.injEq] at h1 h2
                obtain ⟨hps, hphere, hpf, hpsnd⟩ := compInner_pairs hh1 hh2
                obtain ⟨pr, hpr, hrf, hrs⟩ := ih hm1 hm2
                refine ⟨hps ++ pr, ?_, ?_, ?_⟩
                · rw [hphere, hpr]
                · rw [← h1, hpf, hrf, List.map_append]
                · rw [← h2, hpsnd, hrs, List.map_append]

theorem classComp_pairs {m : Value} {code : Scalar} {l1 l2 : List Value}
    (h1 : classComp firstKeyOf m code = .ok l1)
    (h2 : classComp firstValOf m code = .ok l2) :
    ∃ ps : List (Value × Value), classComp firstPairOf m code = .ok ps
      ∧ l1 = ps.map Prod.fst ∧ l2 = ps.map Prod.snd := by
  rcases m with sc | xs | entries
  · simp [classComp] at h1
  · simp [classComp] at h1
  · exact compEntries_pairs h1 h2

/-- C9 counterexample: the localhost record has `os_classes = [local]` and
`sub_groups = [local]` but carries NO `os_class_names` or `sub_group_names`
key at all, so the pairs are not equal-length there. -/
theorem localhost_record_missing_name_lists :
    (processRecord ⟨"s", "dom", Value.vmap [], Value.vmap []⟩
        "s/definitions/ctrl/localhost.yaml" "localhost" "localhost"
        (.ok (.vlist []))).map (Option.map (fun hd =>
          (lookup hd (.sstr "os_classes"), lookup hd (.sstr "os_class_names"),
           lookup hd (.sstr "sub_groups"), lookup hd (.sstr "sub_group_names"))))
      = .ok (some (some (.vlist [.scalar (.sstr "local")]), none,
          some (.vlist [.scalar (.sstr "local")]), none)) := rfl

/-- C9 (amended): every record emitted through the classification branch
(processed name not `localhost`) carries all four classification lists, with
`os_classes`/`os_class_names` the positionally corresponding first keys and
first values of one common entry sequence — hence equal length — and likewise
`sub_groups`/`sub_group_names`; the localhost record instead gets
`os_classes = [local]`, `sub_groups = [local]` and no name lists at all. -/
theorem classification_lists_paired (g : Gen) (path fqdn short : String)
    (content : Except PyErr Value) (hd : Dict)
    (hrec : processRecord g path fqdn short content = .ok (some hd))
    (hloc : hostnameOf path fqdn ≠ "localhost") :
    ∃ ps qs : List (Value × Value),
      lookup hd (.sstr "os_classes") = some (.vlist (ps.map Prod.fst))
      ∧ lookup hd (.sstr "os_class_names") = some (.vlist (ps.map Prod.snd))
      ∧ lookup hd (.sstr "sub_groups") = some (.vlist (qs.map Prod.fst))
      ∧ lookup hd (.sstr "sub_group_names") = some (.vlist (qs.map Prod.snd)) := by
  simp only [processRecord] at hrec
  split at hrec
  · exact absurd hrec (by simp)
  · split at hrec
    · exact absurd hrec (by simp)
    · split at hrec
      · rename_i hL
        exact absurd hL hloc
      · split at hrec
        · exact absurd hrec (by simp)
        · split at hrec
          · exact absurd hrec (by simp)
          · rename_i l1 h1
            split at hrec
            · exact absurd hrec (by simp)
            · rename_i l2 h2
              split at hrec
              · exact absurd hrec (by simp)
              · rename_i l3 h3
                split at hrec
                · exact absurd hrec (by simp)
                · rename_i l4 h4
                  simp only [Except.ok.injEq, Option.some.injEq] at hrec
                  subst hrec
                  obtain ⟨ps, hps, hf1, hf2⟩ := classComp_pairs h1 h2
                  obtain ⟨qs, hqs, hg1, hg2⟩ := classComp_pairs h3 h4
                  refine ⟨ps, qs, ?_, ?_, ?_, ?_⟩
                  · rw [lookup_connectionFields_ne _ _ _ (by decide) (by decide)
                      (by decide), ← hf1]
                    exact lookup_merge_keep_nonmap (by simp) rfl rfl
                  · rw [lookup_connectionFields_ne _ _ _ (by decide) (by decide)
                      (by decide), ← hf2]
                    exact lookup_merge_keep_nonmap (by simp) rfl rfl
                  · rw [lookup_connectionFields_ne _ _ _ (by decide) (by decide)
                      (by decide), ← hg1]
                    exact lookup_merge_keep_nonmap (by simp) rfl rfl
                  · rw [lookup_connectionFields_ne _ _ _ (by decide) (by decide)
                      (by decide), ← hg2]
                    exact lookup_merge_keep_nonmap (by simp) rfl rfl

theorem classification_lists_paired_witness :
    ∃ hd : Dict, ∃ ps qs : List (Value × Value),
      processRecord ⟨"s", "dom",
          .vmap [(.sstr "lxr3",
            .vlist [.vmap [(.sstr "lxr3", .scalar (.sstr "Linux RPI3"))]])],
          .vmap []⟩
        "s/definitions/grp/lxr3-fso-01.yaml" "lxr3-fso-01.dom" "lxr3-fso-01"
        (.ok (.vlist [])) = .ok (some hd)
      ∧ lookup hd (.sstr "os_classes") = some (.vlist (ps.map Prod.fst))
      ∧ lookup hd (.sstr "os_class_names") = some (.vlist (ps.map Prod.snd))
      ∧ lookup hd (.sstr "sub_groups") = some (.vlist (qs.map Prod.fst))
      ∧ lookup hd (.sstr "sub_group_names") = some (.vlist (qs.map Prod.snd)) := by
  obtain ⟨ps, qs, h1, h2, h3, h4⟩ := classification_lists_paired
    ⟨"s", "dom",
      .vmap [(.sstr "lxr3",
        .vlist [.vmap [(.sstr "lxr3", .scalar (.sstr "Linux RPI3"))]])],
      .vmap []⟩
    "s/definitions/grp/lxr3-fso-01.yaml" "lxr3-fso-01.dom" "lxr3-fso-01"
    (.ok (.vlist [])) _ rfl (by decide)
  exact ⟨_, ps, qs, rfl, h1, h2, h3, h4⟩

theorem defVarsOfData_of_tryBody_error {d : Value} {e : PyErr}
    (h : tryBody d = .error e) (hne : e ≠ .typeError) :
    defVarsOfData d = .error e := by
  unfold defVarsOfData
  rw [h]
  cases e
  · exact absurd rfl hne
  · rfl
  · rfl
  · rfl
  · rfl
  · rfl
  · rfl

theorem processRecord_defvars_error {g : Gen} {path fqdn short : String}
    {data : Value} {e : PyErr} (h : defVarsOfData data = .error e) :
    processRecord g path fqdn short (.ok data) = .error e := by
  simp only [processRecord, h]

/-- C5 counterexample: a definition file whose content is a mapping without
integer key `0` raises `KeyError` at `definition_data[0]`; `KeyError` is not
caught by the `except TypeError` handler, so the record aborts the run
instead of being treated as having no declared variables. -/
theorem mapping_without_key_zero_aborts :
    processRecord ⟨"s", "dom", Value.vmap [], Value.vmap []⟩
        "s/definitions/g/h-x.yaml" "h-x.dom" "h-x"
        (.ok (.vmap [(.sstr "a", .scalar (.sint 1))]))
      = .error .keyError
    ∧ processRecord ⟨"s", "dom", Value.vmap [], Value.vmap []⟩
        "s/definitions/g/h-x.yaml" "h-x.dom" "h-x" (.error .ioError)
      = .error .ioError :=
  ⟨rfl, rfl⟩

/-- C5 (amended): only a `TypeError` raised while converting the declared
variable value is caught and treated as "no declared variables" (the host is
still emitted); any other exception from a single definition file — an
unreadable file, malformed YAML, a mapping without integer key `0`
(`KeyError`), a non-mapping entry (`AttributeError`) — propagates uncaught
and aborts the whole run, leaving later records unprocessed. -/
theorem only_typeerror_recovered (g : Gen)
    (pre rest : List (String × String × String × Except PyErr Value))
    (path fqdn short : String) (data data2 : Value) (e : PyErr)
    (hds : List Dict)
    (h0 : generate_host_data g pre = .ok hds)
    (h1 : tryBody data = .error e) (h2 : e ≠ .typeError)
    (h3 : tryBody data2 = .error .typeError)
    (hat : '@' ∉ path.data) :
    generate_host_data g (pre ++ (path, fqdn, short, .ok data) :: rest)
      = .error e
    ∧ defVarsOfData data2 = .ok []
    ∧ (∃ hd : Dict, processRecord g path "localhost" "localhost" (.ok data2)
        = .ok (some hd)) := by
  have hdv : defVarsOfData data = .error e := defVarsOfData_of_tryBody_error h1 h2
  have hd2 : defVarsOfData data2 = .ok [] := by
    simp only [defVarsOfData, h3]
  refine ⟨?_, hd2, ?_⟩
  · induction pre generalizing hds with
    | nil =>
        simp only [List.nil_append, generate_host_data,
          processRecord_defvars_error hdv]
    | cons r0 pre' ih =>
        obtain ⟨p0, f0, s0, c0⟩ := r0
        simp only [generate_host_data] at h0
        split at h0
        · exact absurd h0 (by simp)
        · rename_i r hr
          split at h0
          · exact absurd h0 (by simp)
          · rename_i more hmore
            have ih2 : generate_host_data g
                (pre'.append ((path, fqdn, short, Except.ok data) :: rest))
                = Except.error e := ih more hmore
            simp only [List.cons_append, generate_host_data, hr, ih2]
  · simp only [processRecord, hd2, hostnameOf_no_at hat, if_true]
    exact ⟨_, rfl⟩

theorem only_typeerror_recovered_witness :
    generate_host_data ⟨"s", "dom", Value.vmap [], Value.vmap []⟩
        ([] ++ ("s/definitions/ctrl/localhost.yaml", "h-x.dom", "h-x",
          .ok (.vmap [(.sstr "a", .scalar (.sint 1))])) :: [])
      = .error .keyError
    ∧ defVarsOfData (.vmap [(.sint 0, .vmap [(.sstr "vars", .scalar (.sint 7))])])
      = .ok []
    ∧ (∃ hd : Dict, processRecord ⟨"s", "dom", Value.vmap [], Value.vmap []⟩
        "s/definitions/ctrl/localhost.yaml" "localhost" "localhost"
        (.ok (.vmap [(.sint 0, .vmap [(.sstr "vars", .scalar (.sint 7))])]))
        = .ok (some hd)) :=
  only_typeerror_recovered ⟨"s", "dom", Value.vmap [], Value.vmap []⟩
    [] [] "s/definitions/ctrl/localhost.yaml" "h-x.dom" "h-x"
    (.vmap [(.sstr "a", .scalar (.sint 1))])
    (.vmap [(.sint 0, .vmap [(.sstr "vars", .scalar (.sint 7))])])
    .keyError [] rfl rfl (by decide) rfl (by decide)

/-- C4 counterexample: a non-empty string naming NO existing file does not
abort construction — both classification maps silently load as empty and
`__init__` succeeds. -/
theorem missing_map_file_silently_empty :
    loadClassMap (.scalar (.sstr "/no/such/file.yaml")) (fun _ => none)
      = .ok (.vmap [])
    ∧ initClassMaps (.scalar (.sstr "/no/such/file.yaml"))
        (.scalar (.sstr "/no/such/file.yaml")) (fun _ => none)
      = .ok (.vmap [], .vmap []) :=
  ⟨rfl, rfl⟩

/-- C4 (amended): for a non-empty string configuration value, only a path
that names an EXISTING file can make construction fail: a read/parse failure
of that file propagates and aborts `__init__` (as does a parse to a non-dict,
via `AttributeError` at `.get`), while a path naming no file silently yields
an empty classification map instead of a fatal error. -/
theorem class_map_loading (s : String)
    (fs : String → Option (Except PyErr Value)) (hs : s ≠ "") :
    (fs s = none → loadClassMap (.scalar (.sstr s)) fs = .ok (.vmap []))
    ∧ (∀ e, fs s = some (.error e) →
        loadClassMap (.scalar (.sstr s)) fs = .error e)
    ∧ (∀ v, fs s = some (.ok v) →
        loadClassMap (.scalar (.sstr s)) fs = pyGet v (.sstr "data") (.vmap []))
    ∧ (∀ v, fs s = some (.ok v) → isMapB v = false →
        loadClassMap (.scalar (.sstr s)) fs = .error .attributeError)
    ∧ (∀ e sgArg, fs s = some (.error e) →
        initClassMaps (.scalar (.sstr s)) sgArg fs = .error e) := by
  have ht : (truthy (.scalar (.sstr s)) = false) = False := by
    simp [truthy, hs]
  refine ⟨?_, ?_, ?_, ?_, ?_⟩
  · intro h
    simp only [loadClassMap, ht, if_false, h]
  · intro e h
    simp only [loadClassMap, ht, if_false, h]
  · intro v h
    simp only [loadClassMap, ht, if_false, h]
  · intro v h hm
    simp only [loadClassMap, ht, if_false, h]
    rcases v with sc | xs | m
    · rfl
    · rfl
    · simp [isMapB] at hm
  · intro e sgArg h
    have hl : loadClassMap (.scalar (.sstr s)) fs = .error e := by
      simp only [loadClassMap, ht, if_false, h]
    simp only [initClassMaps, hl]

theorem class_map_loading_witness :
    loadClassMap (.scalar (.sstr "/m.yaml"))
        (fun p => if p = "/m.yaml" then some (.error .yamlError) else none)
      = .error .yamlError :=
  (class_map_loading "/m.yaml"
      (fun p => if p = "/m.yaml" then some (.error .yamlError) else none)
      (by decide)).2.1 .yamlError (by simp)

end FileSystemInventory

